import Mathlib

/-!
# dbus-cxx : the signature parser (`dbus-cxx/signature.cpp`)

A shallow embedding of `DBus::Signature` and of its recursive-descent parser
`Signature::create_signature_tree`, followed by theorems about them.

* A `std::shared_ptr<priv::SignatureNode>` is a value of `SignatureNodePointer`:
  either `nullptr` or a node with its three fields `m_dataType`, `m_sub`, `m_next`.
* The iterator pair `(itr, end_itr)` is the list of characters from `itr` up to
  `end_itr`; `itr == end_itr` is the empty list, `*itr` is the head and `++itr`
  drops the head.  `++itr` on the empty list moves the iterator past `end_itr`,
  which C++ leaves undefined; the embedding reports it as an outcome of its own.
* `throw ErrorUnableToParse(..)` and the two undefined operations of the source
  (`parent_node->m_dataType` on a null `parent_node`, `++itr` at `end_itr`) are
  the non-`ok` constructors of `Outcome`.
-/

namespace DBus

/-- Modelled from the spec: the enumeration `DataType` of `types.h`, which is not among the
sources at hand.  Its members are the enumerators that `signature.cpp` names: the primitive
tags, `VARIANT`, `ARRAY`, the four delimiter tags, the two synthetic container tags `STRUCT`
and `DICT_ENTRY`, and the sentinel `INVALID`. -/
inductive DataType
  | INVALID
  | BYTE
  | BOOLEAN
  | INT16
  | UINT16
  | INT32
  | UINT32
  | INT64
  | UINT64
  | DOUBLE
  | STRING
  | OBJECT_PATH
  | SIGNATURE
  | ARRAY
  | VARIANT
  | STRUCT
  | DICT_ENTRY
  | UNIX_FD
  | STRUCT_BEGIN
  | STRUCT_END
  | DICT_ENTRY_BEGIN
  | DICT_ENTRY_END
  deriving DecidableEq, Repr

/-- Modelled from the spec: the characters of the grammar with their tags, as section 6 of the
specification lists them.  The table belongs to `types.h`, which is not among the sources at
hand. -/
def dbus_type_table : List (Char × DataType) :=
  [('y', .BYTE), ('b', .BOOLEAN), ('n', .INT16), ('q', .UINT16), ('i', .INT32), ('u', .UINT32),
   ('x', .INT64), ('t', .UINT64), ('d', .DOUBLE), ('s', .STRING), ('o', .OBJECT_PATH),
   ('g', .SIGNATURE), ('h', .UNIX_FD), ('v', .VARIANT), ('a', .ARRAY), ('(', .STRUCT_BEGIN),
   (')', .STRUCT_END), ('{', .DICT_ENTRY_BEGIN), ('}', .DICT_ENTRY_END)]

/-- Modelled from the spec: the lookup `char_to_dbus_type` of `types.h`, which is not among
the sources at hand.  A character of the table gets its tag; every other character is
unknown and gets the sentinel `INVALID`, which the parser rejects in the `default` branch of
its switch. -/
def char_to_dbus_type (c : Char) : DataType :=
  match dbus_type_table.lookup c with
  | some t => t
  | none => .INVALID

/-- The messages of the `ErrorUnableToParse` exceptions that `create_signature_tree` throws. -/
inductive ErrorUnableToParse
  /-- "STRUCT_END end without any STRUCT_BEGIN" (line 165). -/
  | struct_end_without_begin
  /-- "DICT_ENTRY END end without any DICT_ENTRY BEGIN" (line 186). -/
  | dict_entry_end_without_begin
  /-- "Unknown DataType" (line 211). -/
  | unknown_data_type
  /-- "Missing STRUCT_END" (line 226). -/
  | missing_struct_end
  /-- "Missing DICT_ENTRY_END" (line 230). -/
  | missing_dict_entry_end
  deriving DecidableEq, Repr

/-- The operations of `create_signature_tree` whose behaviour C++ does not define. -/
inductive UndefinedBehaviour
  /-- `parent_node->m_dataType` evaluated while `parent_node` is null (lines 164 and 185). -/
  | null_parent_dereference
  /-- `++itr` evaluated while `itr == end_itr` (line 221). -/
  | increment_past_end
  deriving DecidableEq, Repr

/-- How a call ends: it returns `a`, it throws `ErrorUnableToParse`, it performs an undefined
operation, or the embedding ran out of fuel before the call ended. -/
inductive Outcome (α : Type)
  | ok (a : α)
  | parse_error (e : ErrorUnableToParse)
  | undefined (u : UndefinedBehaviour)
  | out_of_fuel
  deriving DecidableEq, Repr

/-- Sequencing of two steps: the second runs on the value returned by the first. -/
def Outcome.bind {α β : Type} (x : Outcome α) (f : α → Outcome β) : Outcome β :=
  match x with
  | .ok a => f a
  | .parse_error e => .parse_error e
  | .undefined u => .undefined u
  | .out_of_fuel => .out_of_fuel

/-- The type `SignatureNodePointer` (`std::shared_ptr<priv::SignatureNode>`): null, or a node
with its tag `m_dataType`, its first child `m_sub` and its next sibling `m_next`. -/
inductive SignatureNodePointer
  | nullptr
  | node (m_dataType : DataType) (m_sub : SignatureNodePointer) (m_next : SignatureNodePointer)
  deriving DecidableEq, Repr

namespace SignatureNodePointer

/-- The chain `first` after `current_node->m_next = new_node`, where `current_node` is the
last node of `first`; with no node yet (`first` null) the new node is the chain. -/
def link : SignatureNodePointer → SignatureNodePointer → SignatureNodePointer
  | nullptr, new_node => new_node
  | node t sub next, new_node => node t sub (link next new_node)

/-- The chain `first` after `current->m_sub = sub`, where `current` is the last node of
`first`. -/
def set_sub : SignatureNodePointer → SignatureNodePointer → SignatureNodePointer
  | nullptr, _ => nullptr
  | node t _ nullptr, sub => node t sub nullptr
  | node t s (node t2 s2 n2), sub => node t s (set_sub (node t2 s2 n2) sub)

/-- The test `(parent_node) && (parent_node->m_dataType == t)` of lines 215, 224 and 228. -/
def has_type : SignatureNodePointer → DataType → Bool
  | nullptr, _ => false
  | node t _ _, t2 => t == t2

/-- Number of nodes of a chain, following `m_next`. -/
def chain_length : SignatureNodePointer → Nat
  | nullptr => 0
  | node _ _ next => chain_length next + 1

/-- Every node tagged `ARRAY`, anywhere in the tree, has a child chain of exactly one
node: a populated `m_sub` whose `m_next` is null. -/
def arrays_have_one_child : SignatureNodePointer → Bool
  | nullptr => true
  | node t sub next =>
    (t != .ARRAY ||
      match sub with
      | node _ _ nullptr => true
      | _ => false) &&
    arrays_have_one_child sub && arrays_have_one_child next

end SignatureNodePointer

open SignatureNodePointer

/-- The node that `Signature::create_signature_node` allocates for `data_type` (lines 247-266):
none for the two END tags, a `STRUCT` node for `STRUCT_BEGIN`, a `DICT_ENTRY` node for
`DICT_ENTRY_BEGIN`, and a node tagged `data_type` otherwise. -/
def new_node (data_type : DataType) : Option SignatureNodePointer :=
  if data_type = .STRUCT_END ∨ data_type = .DICT_ENTRY_END then none
  else if data_type = .STRUCT_BEGIN then some (node .STRUCT nullptr nullptr)
  else if data_type = .DICT_ENTRY_BEGIN then some (node .DICT_ENTRY nullptr nullptr)
  else some (node data_type nullptr nullptr)

/-- The function `Signature::create_signature_node`, together with lines 130-134 of its
caller, on the chain `first` whose last node is `current_node`: for an END tag nothing
changes, otherwise the new node is linked behind the last node. -/
def create_signature_node (data_type : DataType) (first : SignatureNodePointer) :
    SignatureNodePointer :=
  match new_node data_type with
  | none => first
  | some n => first.link n

/-- The pointer `current` after `current = create_signature_node(data_type, current)`, for a
tag that allocates a node; it is the `parent_node` of the nested call. -/
def current_node (data_type : DataType) : SignatureNodePointer :=
  (new_node data_type).getD nullptr

/-- Lines 224-232: the code behind the `while` loop, reached when `itr == end_itr`. -/
def end_of_input (first parent_node : SignatureNodePointer) :
    Outcome (SignatureNodePointer × List Char) :=
  if parent_node.has_type .STRUCT then .parse_error .missing_struct_end
  else if parent_node.has_type .DICT_ENTRY then .parse_error .missing_dict_entry_end
  else .ok (first, [])

/-- Lines 215-221: the code behind the `switch`.  Under an `ARRAY` parent the call returns
`first`; otherwise `++itr` and the loop goes on (`loop`). -/
def after_switch (loop : SignatureNodePointer → List Char → Outcome (SignatureNodePointer × List Char))
    (parent_node first : SignatureNodePointer) (itr : List Char) :
    Outcome (SignatureNodePointer × List Char) :=
  if parent_node.has_type .ARRAY then .ok (first, itr)
  else
    match itr with
    | [] => .undefined .increment_past_end
    | _ :: itr2 => loop first itr2

/-- One pass through the `while` loop of `Signature::create_signature_tree`, entered with the
locals `first` (whose last node is `current`) and the iterator `itr`.  `self first itr parent`
stands for the function itself: with a null `first` it is a nested call
`create_signature_tree(++itr, end_itr, current)`, and with the present `first` and
`parent_node` it is the rest of the loop.  The result is the returned `first` and the place
where the call leaves the iterator `itr`, which is passed by reference. -/
def create_signature_tree_body (tag_of : Char → DataType)
    (self : SignatureNodePointer → List Char → SignatureNodePointer →
      Outcome (SignatureNodePointer × List Char))
    (first : SignatureNodePointer) (itr : List Char) (parent_node : SignatureNodePointer) :
    Outcome (SignatureNodePointer × List Char) :=
  match itr with
  | [] => end_of_input first parent_node
  | c :: rest =>
    let data_type := tag_of c
    let first2 := create_signature_node data_type first
    let nested : Outcome (SignatureNodePointer × List Char) :=
      (self nullptr rest (current_node data_type)).bind fun r =>
        after_switch (fun f i => self f i parent_node) parent_node (first2.set_sub r.1) r.2
    let plain : Outcome (SignatureNodePointer × List Char) :=
      after_switch (fun f i => self f i parent_node) parent_node first2 (c :: rest)
    match data_type with
    | .ARRAY => nested
    | .STRUCT => plain
    | .STRUCT_BEGIN => nested
    | .STRUCT_END =>
      match parent_node with
      | nullptr => .undefined .null_parent_dereference
      | node t _ _ =>
        if t ≠ .STRUCT then .parse_error .struct_end_without_begin
        else .ok (first2, c :: rest)
    | .DICT_ENTRY => plain
    | .DICT_ENTRY_BEGIN => nested
    | .DICT_ENTRY_END =>
      match parent_node with
      | nullptr => .undefined .null_parent_dereference
      | node t _ _ =>
        if t ≠ .DICT_ENTRY then .parse_error .dict_entry_end_without_begin
        else .ok (first2, c :: rest)
    | .BYTE => plain
    | .BOOLEAN => plain
    | .INT16 => plain
    | .UINT16 => plain
    | .INT32 => plain
    | .UINT32 => plain
    | .INT64 => plain
    | .UINT64 => plain
    | .DOUBLE => plain
    | .STRING => plain
    | .OBJECT_PATH => plain
    | .SIGNATURE => plain
    | .VARIANT => plain
    | .UNIX_FD => plain
    | .INVALID => .parse_error .unknown_data_type

/-- The loop of `Signature::create_signature_tree` run from the locals `first` and `itr`, with
`fuel` bounding the number of nested entries into the body. -/
def create_signature_tree_loop (tag_of : Char → DataType) :
    Nat → SignatureNodePointer → List Char → SignatureNodePointer →
      Outcome (SignatureNodePointer × List Char)
  | 0 => fun _ _ _ => .out_of_fuel
  | fuel + 1 => create_signature_tree_body tag_of (create_signature_tree_loop tag_of fuel)

/-- The function `Signature::create_signature_tree(itr, end_itr, parent_node)`: the loop
entered with `first` and `current` null.  A text of `n` characters needs fuel `n + 1`. -/
def create_signature_tree (tag_of : Char → DataType) (itr : List Char)
    (parent_node : SignatureNodePointer) : Outcome (SignatureNodePointer × List Char) :=
  create_signature_tree_loop tag_of (itr.length + 1) nullptr itr parent_node

/-- A tag lookup that, unlike `char_to_dbus_type`, resolves two characters directly to the
synthetic tags: `r` to `STRUCT` and `e` to `DICT_ENTRY` (the D-Bus type codes of the two
containers).  It serves to run the parser on such characters. -/
def char_to_dbus_type_with_containers (c : Char) : DataType :=
  if c = 'r' then .STRUCT
  else if c = 'e' then .DICT_ENTRY
  else char_to_dbus_type c

/-- The class `Signature::priv_data`. -/
structure Signature where
  m_signature : List Char
  m_startingNode : SignatureNodePointer
  m_valid : Bool
  deriving DecidableEq, Repr

namespace Signature

/-- The function `Signature::initialize` (lines 305-329; the name is reserved in Lean):
`m_valid = true`, then the parse from `m_signature.begin()` with the default, null,
`parent_node`; `ErrorUnableToParse` is caught and clears `m_valid`, leaving `m_startingNode`
as it was.  An undefined operation of the parser is not caught. -/
def init (tag_of : Char → DataType) (self : Signature) : Outcome Signature :=
  match create_signature_tree tag_of self.m_signature nullptr with
  | .ok r => .ok { self with m_startingNode := r.1, m_valid := true }
  | .parse_error _ => .ok { self with m_valid := false }
  | .undefined u => .undefined u
  | .out_of_fuel => .out_of_fuel

/-- The constructor `Signature::Signature()` with `priv_data()`: empty text, null root,
`m_valid( false )`. -/
def default : Signature :=
  { m_signature := [], m_startingNode := nullptr, m_valid := false }

/-- The constructors `Signature( const std::string& s )` and `Signature( const char* s )`:
a fresh `priv_data`, the text stored, then `initialize()`. -/
def of_string (tag_of : Char → DataType) (s : List Char) : Outcome Signature :=
  init tag_of { default with m_signature := s }

/-- The two `Signature::operator =` (lines 71-79): the text is stored, nothing else. -/
def assign (self : Signature) (s : List Char) : Signature :=
  { self with m_signature := s }

/-- The accessor `Signature::str`. -/
def str (self : Signature) : List Char := self.m_signature

/-- The function `Signature::is_valid`. -/
def is_valid (self : Signature) : Bool := self.m_valid

/-- The function `Signature::is_singleton` (lines 105-110). -/
def is_singleton (self : Signature) : Bool :=
  self.m_valid &&
    match self.m_startingNode with
    | nullptr => false
    | node t _ next => t != .INVALID && next == nullptr

end Signature

/-! ## The trees of a text -/

namespace DataType

/-- The tags at which the switch of `create_signature_tree` only does `break`: the primitive
tags, `VARIANT`, and the two synthetic tags `STRUCT` and `DICT_ENTRY` (lines 148-151, 169-172
and 191-207). -/
def is_plain : DataType → Bool
  | STRUCT | DICT_ENTRY | BYTE | BOOLEAN | INT16 | UINT16 | INT32 | UINT32 | INT64 | UINT64
  | DOUBLE | STRING | OBJECT_PATH | SIGNATURE | VARIANT | UNIX_FD => true
  | _ => false

/-- The tags at which the switch makes a nested call, with the tag of the node that
`create_signature_node` allocates for them. -/
def opens : DataType → Option DataType
  | ARRAY => some ARRAY
  | STRUCT_BEGIN => some STRUCT
  | DICT_ENTRY_BEGIN => some DICT_ENTRY
  | _ => none

/-- The primitive tags and `VARIANT` (lines 191-204). -/
def is_basic : DataType → Bool
  | BYTE | BOOLEAN | INT16 | UINT16 | INT32 | UINT32 | INT64 | UINT64
  | DOUBLE | STRING | OBJECT_PATH | SIGNATURE | VARIANT | UNIX_FD => true
  | _ => false

end DataType

/-- The relation `Parses tag_of text chain`: `text` is a sequence of complete types under the
tag lookup `tag_of` and `chain` is its tree, one node for each top-level type.  A character
with a plain tag is a node without child; an `ARRAY` character takes the one type that follows
as its child; a `STRUCT_BEGIN` or `DICT_ENTRY_BEGIN` character takes the types up to the
matching END character as its children. -/
inductive Parses (tag_of : Char → DataType) : List Char → SignatureNodePointer → Prop
  | nil : Parses tag_of [] nullptr
  | plain (c : Char) (s : List Char) (next : SignatureNodePointer) :
      (tag_of c).is_plain = true → Parses tag_of s next →
      Parses tag_of (c :: s) (node (tag_of c) nullptr next)
  | array (c : Char) (t s : List Char) (ty : DataType) (sb next : SignatureNodePointer) :
      tag_of c = .ARRAY → Parses tag_of t (node ty sb nullptr) → Parses tag_of s next →
      Parses tag_of (c :: (t ++ s)) (node .ARRAY (node ty sb nullptr) next)
  | struct (c e : Char) (f s : List Char) (sub next : SignatureNodePointer) :
      tag_of c = .STRUCT_BEGIN → tag_of e = .STRUCT_END →
      Parses tag_of f sub → Parses tag_of s next →
      Parses tag_of (c :: (f ++ e :: s)) (node .STRUCT sub next)
  | dict_entry (c e : Char) (f s : List Char) (sub next : SignatureNodePointer) :
      tag_of c = .DICT_ENTRY_BEGIN → tag_of e = .DICT_ENTRY_END →
      Parses tag_of f sub → Parses tag_of s next →
      Parses tag_of (c :: (f ++ e :: s)) (node .DICT_ENTRY sub next)

/-- Where a call with a parent other than `ARRAY` leaves the iterator when it returns: at
`end_itr` when the parent is neither `STRUCT` nor `DICT_ENTRY`, and else on the END character
that closes the parent. -/
def Closes (tag_of : Char → DataType) (parent_node : SignatureNodePointer) (itr : List Char) :
    Prop :=
  (itr = [] ∧ parent_node.has_type .STRUCT = false ∧ parent_node.has_type .DICT_ENTRY = false) ∨
  ∃ e k, itr = e :: k ∧
    ((parent_node.has_type .STRUCT = true ∧ tag_of e = .STRUCT_END) ∨
     (parent_node.has_type .DICT_ENTRY = true ∧ tag_of e = .DICT_ENTRY_END))

/-! ## The grammar of the specification -/

/-- A primitive or variant character (section 6 of the specification). -/
def is_basic_char (c : Char) : Bool :=
  c ∈ ['y', 'b', 'n', 'q', 'i', 'u', 'x', 't', 'd', 's', 'o', 'g', 'h', 'v']

/-- A complete type of the grammar: a primitive or variant character, or `a` followed by
exactly one complete type, or `(` followed by zero or more complete types and `)`, or an
opening brace followed by zero or more complete types and a closing brace. -/
inductive CompleteType : List Char → Prop
  | basic (c : Char) : is_basic_char c = true → CompleteType [c]
  | array (t : List Char) : CompleteType t → CompleteType ('a' :: t)
  | struct (ts : List (List Char)) : (∀ t ∈ ts, CompleteType t) →
      CompleteType ('(' :: (ts.flatten ++ [')']))
  | dict_entry (ts : List (List Char)) : (∀ t ∈ ts, CompleteType t) →
      CompleteType ('{' :: (ts.flatten ++ ['}']))

/-- A well-formed type sequence: a concatenation of zero or more complete types. -/
def TypeSeq (s : List Char) : Prop :=
  ∃ ts : List (List Char), (∀ t ∈ ts, CompleteType t) ∧ s = ts.flatten

/-! ## The other constructors and the iterators -/

/-- The text `std::string( s, pos, n )`: the characters of `s` from position `pos` on, at most
`n` of them; there is none when `pos` lies behind the end of `s`, where the standard library
throws `std::out_of_range`. -/
def std_string_substr (s : List Char) (pos n : Nat) : Option (List Char) :=
  if pos ≤ s.length then some ((s.drop pos).take n) else none

/-- Modelled from the spec: the class `SignatureIterator`, whose source is not at hand.
Section 3 of the specification gives it one attribute, a reference to the current node, or
the end sentinel when there is no current node (a null `m_current`); two iterators are equal
when they reference the same node or are both the end sentinel. -/
structure SignatureIterator where
  m_current : SignatureNodePointer
  deriving DecidableEq, Repr

namespace SignatureIterator

/-- Modelled from the spec: the constructor `SignatureIterator()`, an iterator without
current node. -/
def default : SignatureIterator := { m_current := nullptr }

/-- Modelled from the spec: the constructor `SignatureIterator( startnode )`, an iterator
positioned at `startnode`. -/
def of_node (startnode : SignatureNodePointer) : SignatureIterator :=
  { m_current := startnode }

end SignatureIterator

namespace Signature

/-- The constructor `Signature( const std::string& s, size_type pos, size_type n )`
(lines 36-40); there is no Signature when `std::string( s, pos, n )` throws. -/
def of_substring (tag_of : Char → DataType) (s : List Char) (pos n : Nat) :
    Option (Outcome Signature) :=
  (std_string_substr s pos n).map fun text => init tag_of { default with m_signature := text }

/-- The constructor `Signature( const char* s, size_type n )` (lines 48-52), `s` being the
character array that the pointer refers to: the text is its first `n` characters, and
nothing is defined when the array is shorter than `n`. -/
def of_c_string_n (tag_of : Char → DataType) (s : List Char) (n : Nat) :
    Option (Outcome Signature) :=
  if n ≤ s.length then some (init tag_of { default with m_signature := s.take n }) else none

/-- The constructor `Signature( size_type n, char c )` (lines 54-58): `n` copies of `c`. -/
def of_fill (tag_of : Char → DataType) (n : Nat) (c : Char) : Outcome Signature :=
  init tag_of { default with m_signature := List.replicate n c }

/-- The function `Signature::begin` (lines 81-91). -/
def begin (self : Signature) : SignatureIterator :=
  if !self.m_valid then SignatureIterator.default
  else SignatureIterator.of_node self.m_startingNode

/-- The function `Signature::end` (lines 93-99; the name is reserved in Lean). -/
def end_ (_self : Signature) : SignatureIterator :=
  SignatureIterator.of_node nullptr

end Signature

/-! ## Shapes of trees -/

namespace SignatureNodePointer

/-- Every node with a populated child is tagged `ARRAY`, `STRUCT` or `DICT_ENTRY`; so a
node with a primitive tag or `VARIANT` has a null `m_sub`. -/
def only_containers_have_child : SignatureNodePointer → Bool
  | nullptr => true
  | node t sub next =>
    (sub == nullptr || t == .ARRAY || t == .STRUCT || t == .DICT_ENTRY) &&
    only_containers_have_child sub && only_containers_have_child next

/-- All nodes of a tree, each with its tag and its child: a node, then the nodes below it,
then the nodes of its next siblings. -/
def all_nodes : SignatureNodePointer → List (DataType × SignatureNodePointer)
  | nullptr => []
  | node t sub next => (t, sub) :: (all_nodes sub ++ all_nodes next)

/-- The tags of all nodes of a tree: a node, then its children, then its next siblings. -/
def all_tags : SignatureNodePointer → List DataType
  | nullptr => []
  | node t sub next => t :: (all_tags sub ++ all_tags next)

/-- The chain of childless nodes with the given tags. -/
def plain_chain : List DataType → SignatureNodePointer
  | [] => nullptr
  | t :: ts => node t nullptr (plain_chain ts)

end SignatureNodePointer

/-- The tag of the node that `create_signature_node` allocates for `data_type`, if it
allocates one (see `new_node`). -/
def created_tag (data_type : DataType) : Option DataType :=
  match new_node data_type with
  | some (node t _ _) => some t
  | _ => none

/-- Modelled from the spec: the character of a tag, the table of section 6 read from the tag
to the character; a tag without character gets a question mark. -/
def dbus_type_to_char (t : DataType) : Char :=
  match dbus_type_table.find? (fun e => e.2 == t) with
  | some e => e.1
  | none => '?'

/-- The text of a chain: a primitive or variant node is its character, an `ARRAY` node is `a`
followed by its child, a `STRUCT` node is its fields in parentheses, a `DICT_ENTRY` node is
its fields in braces, and siblings follow one another. -/
def unparse : SignatureNodePointer → List Char
  | nullptr => []
  | node t sub next =>
    match t with
    | .ARRAY => 'a' :: (unparse sub ++ unparse next)
    | .STRUCT => '(' :: (unparse sub ++ ')' :: unparse next)
    | .DICT_ENTRY => '{' :: (unparse sub ++ '}' :: unparse next)
    | _ => dbus_type_to_char t :: unparse next

end DBus

/-! ## Theorems -/

namespace DBus

open SignatureNodePointer

section outcome

variable {α β γ : Type}

@[simp] theorem Outcome.bind_ok (a : α) (f : α → Outcome β) : (Outcome.ok a).bind f = f a := rfl

@[simp] theorem Outcome.bind_parse_error (e : ErrorUnableToParse) (f : α → Outcome β) :
    (Outcome.parse_error e : Outcome α).bind f = .parse_error e := rfl

@[simp] theorem Outcome.bind_undefined (u : UndefinedBehaviour) (f : α → Outcome β) :
    (Outcome.undefined u : Outcome α).bind f = .undefined u := rfl

@[simp] theorem Outcome.bind_out_of_fuel (f : α → Outcome β) :
    (Outcome.out_of_fuel : Outcome α).bind f = .out_of_fuel := rfl

theorem Outcome.bind_assoc (x : Outcome α) (f : α → Outcome β) (g : β → Outcome γ) :
    (x.bind f).bind g = x.bind fun a => (f a).bind g := by
  cases x <;> rfl

theorem Outcome.bind_eq_ok {x : Outcome α} {f : α → Outcome β} {b : β}
    (h : x.bind f = .ok b) : ∃ a, x = .ok a ∧ f a = .ok b := by
  cases x with
  | ok a => exact ⟨a, rfl, h⟩
  | parse_error e => simp at h
  | undefined u => simp at h
  | out_of_fuel => simp at h

end outcome

section chains

@[simp] theorem SignatureNodePointer.link_nullptr_left (n : SignatureNodePointer) :
    link nullptr n = n := rfl

@[simp] theorem SignatureNodePointer.link_nullptr_right (f : SignatureNodePointer) :
    link f nullptr = f := by
  induction f with
  | nullptr => rfl
  | node t s n _ ih => simp [link, ih]

theorem SignatureNodePointer.link_assoc (a b c : SignatureNodePointer) :
    link (link a b) c = link a (link b c) := by
  induction a with
  | nullptr => rfl
  | node t s n _ ih => simp [link, ih]

theorem SignatureNodePointer.set_sub_link_node (f : SignatureNodePointer) (t : DataType)
    (s sub : SignatureNodePointer) :
    set_sub (link f (node t s nullptr)) sub = link f (node t sub nullptr) := by
  induction f with
  | nullptr => rfl
  | node t1 s1 n1 _ ih =>
    cases n1 with
    | nullptr => simp [link, set_sub]
    | node t2 s2 n2 =>
      simp only [link] at ih ⊢
      simp only [set_sub]
      rw [ih]

@[simp] theorem SignatureNodePointer.chain_length_link (a b : SignatureNodePointer) :
    chain_length (link a b) = chain_length a + chain_length b := by
  induction a with
  | nullptr => simp [link, chain_length]
  | node t s n _ ih => simp [link, chain_length, ih]; omega

end chains

section fuel

variable (tag_of : Char → DataType)

/-- Prefixing the chain built so far commutes with one pass of the loop. -/
theorem create_signature_tree_body_link
    (self : SignatureNodePointer → List Char → SignatureNodePointer →
      Outcome (SignatureNodePointer × List Char))
    (hself : ∀ first i p, self first i p =
      (self nullptr i p).bind fun r => .ok (link first r.1, r.2))
    (first : SignatureNodePointer) (i : List Char) (p : SignatureNodePointer) :
    create_signature_tree_body tag_of self first i p =
      (create_signature_tree_body tag_of self nullptr i p).bind
        fun r => .ok (link first r.1, r.2) := by
  have hafter : ∀ (n : SignatureNodePointer) (itr : List Char),
      after_switch (fun f i => self f i p) p (link first n) itr =
        (after_switch (fun f i => self f i p) p n itr).bind
          fun r => .ok (link first r.1, r.2) := by
    intro n itr
    unfold after_switch
    by_cases hp : p.has_type .ARRAY = true
    · simp [hp]
    · have hp2 : p.has_type .ARRAY = false := by simpa using hp
      simp only [hp2, Bool.false_eq_true, if_false]
      cases itr with
      | nil => simp
      | cons c itr2 =>
        simp only
        rw [hself (link first n), hself n, Outcome.bind_assoc]
        simp [link_assoc]
  cases i with
  | nil =>
    simp only [create_signature_tree_body, end_of_input]
    split_ifs <;> simp
  | cons c rest =>
    simp only [create_signature_tree_body]
    cases h : tag_of c <;>
      simp only [create_signature_node, new_node, current_node, Option.getD, reduceCtorEq,
        or_self, or_false, false_or, if_true, if_false, link_nullptr_left, set_sub_link_node,
        set_sub, Outcome.bind_parse_error, hafter, Outcome.bind_assoc]
    all_goals first
      | rfl
      | (cases p <;> simp; split_ifs <;> simp)


theorem after_switch_length
    (self : SignatureNodePointer → List Char → SignatureNodePointer →
      Outcome (SignatureNodePointer × List Char))
    (hself : ∀ first i p r, self first i p = .ok r → r.2.length ≤ i.length)
    (p n : SignatureNodePointer) (itr : List Char) (r : SignatureNodePointer × List Char)
    (h : after_switch (fun f i => self f i p) p n itr = .ok r) : r.2.length ≤ itr.length := by
  unfold after_switch at h
  split_ifs at h with hp
  · cases h; exact le_refl _
  · cases itr with
    | nil => simp at h
    | cons c itr2 =>
      have := hself _ _ _ _ h
      simp only [List.length_cons]
      omega

/-- One pass of the loop never leaves the iterator before the place where it found it. -/
theorem create_signature_tree_body_length
    (self : SignatureNodePointer → List Char → SignatureNodePointer →
      Outcome (SignatureNodePointer × List Char))
    (hself : ∀ first i p r, self first i p = .ok r → r.2.length ≤ i.length)
    (first : SignatureNodePointer) (i : List Char) (p : SignatureNodePointer)
    (r : SignatureNodePointer × List Char)
    (h : create_signature_tree_body tag_of self first i p = .ok r) :
    r.2.length ≤ i.length := by
  cases i with
  | nil =>
    simp only [create_signature_tree_body, end_of_input] at h
    split_ifs at h
    cases h; exact le_refl _
  | cons c rest =>
    simp only [create_signature_tree_body] at h
    have hplain : ∀ n, after_switch (fun f i => self f i p) p n (c :: rest) = .ok r →
        r.2.length ≤ (c :: rest).length :=
      fun n hn => after_switch_length self hself p n _ r hn
    have hnested : ∀ cur n, ((self nullptr rest cur).bind fun a =>
        after_switch (fun f i => self f i p) p (set_sub n a.1) a.2) = .ok r →
        r.2.length ≤ (c :: rest).length := by
      intro cur n hn
      obtain ⟨a, ha, hb⟩ := Outcome.bind_eq_ok hn
      have h1 := hself _ _ _ _ ha
      have h2 := after_switch_length self hself p _ _ r hb
      simp only [List.length_cons]
      omega
    cases ht : tag_of c <;> simp only [ht] at h
    all_goals first
      | exact hplain _ h
      | exact hnested _ _ h
      | (cases p <;> simp at h; split_ifs at h; cases h; exact le_refl _)
      | simp at h

theorem after_switch_mono
    (self self2 : SignatureNodePointer → List Char → SignatureNodePointer →
      Outcome (SignatureNodePointer × List Char))
    (hle : ∀ first i p, self first i p ≠ .out_of_fuel → self2 first i p = self first i p)
    (p n : SignatureNodePointer) (itr : List Char)
    (h : after_switch (fun f i => self f i p) p n itr ≠ .out_of_fuel) :
    after_switch (fun f i => self2 f i p) p n itr =
      after_switch (fun f i => self f i p) p n itr := by
  unfold after_switch at h ⊢
  split_ifs at h ⊢ with hp
  · rfl
  · cases itr with
    | nil => rfl
    | cons c itr2 => exact hle _ _ _ h

/-- A pass of the loop that ends keeps its outcome when its nested calls get more fuel. -/
theorem create_signature_tree_body_mono
    (self self2 : SignatureNodePointer → List Char → SignatureNodePointer →
      Outcome (SignatureNodePointer × List Char))
    (hle : ∀ first i p, self first i p ≠ .out_of_fuel → self2 first i p = self first i p)
    (first : SignatureNodePointer) (i : List Char) (p : SignatureNodePointer)
    (h : create_signature_tree_body tag_of self first i p ≠ .out_of_fuel) :
    create_signature_tree_body tag_of self2 first i p =
      create_signature_tree_body tag_of self first i p := by
  cases i with
  | nil => rfl
  | cons c rest =>
    simp only [create_signature_tree_body] at h ⊢
    have hnested : ∀ cur n, ((self nullptr rest cur).bind fun a =>
        after_switch (fun f i => self f i p) p (set_sub n a.1) a.2) ≠ .out_of_fuel →
        ((self2 nullptr rest cur).bind fun a =>
          after_switch (fun f i => self2 f i p) p (set_sub n a.1) a.2) =
        ((self nullptr rest cur).bind fun a =>
          after_switch (fun f i => self f i p) p (set_sub n a.1) a.2) := by
      intro cur n hn
      have h1 : self nullptr rest cur ≠ .out_of_fuel := by
        intro h0; rw [h0] at hn; exact hn rfl
      rw [hle _ _ _ h1]
      cases ha : self nullptr rest cur with
      | ok a =>
        rw [ha] at hn
        simp only [Outcome.bind_ok] at hn ⊢
        exact after_switch_mono self self2 hle p _ _ hn
      | parse_error e => rfl
      | undefined u => rfl
      | out_of_fuel => rfl
    cases ht : tag_of c <;> simp only [ht] at h ⊢
    all_goals first
      | exact after_switch_mono self self2 hle p _ _ h
      | exact hnested _ _ h

theorem after_switch_enough
    (self : SignatureNodePointer → List Char → SignatureNodePointer →
      Outcome (SignatureNodePointer × List Char)) (k : Nat)
    (hself : ∀ first i p, i.length < k → self first i p ≠ .out_of_fuel)
    (p n : SignatureNodePointer) (itr : List Char) (hi : itr.length < k + 1) :
    after_switch (fun f i => self f i p) p n itr ≠ .out_of_fuel := by
  unfold after_switch
  split_ifs with hp
  · simp
  · cases itr with
    | nil => simp
    | cons c itr2 =>
      simp only [List.length_cons] at hi
      exact hself _ _ _ (by omega)

/-- A pass of the loop ends when its nested calls end on every shorter text. -/
theorem create_signature_tree_body_enough
    (self : SignatureNodePointer → List Char → SignatureNodePointer →
      Outcome (SignatureNodePointer × List Char)) (k : Nat)
    (hlen : ∀ first i p r, self first i p = .ok r → r.2.length ≤ i.length)
    (hself : ∀ first i p, i.length < k → self first i p ≠ .out_of_fuel)
    (first : SignatureNodePointer) (i : List Char) (p : SignatureNodePointer)
    (hi : i.length < k + 1) :
    create_signature_tree_body tag_of self first i p ≠ .out_of_fuel := by
  cases i with
  | nil =>
    simp only [create_signature_tree_body, end_of_input]
    split_ifs <;> simp
  | cons c rest =>
    simp only [List.length_cons] at hi
    simp only [create_signature_tree_body]
    have hnested : ∀ cur n, ((self nullptr rest cur).bind fun a =>
        after_switch (fun f i => self f i p) p (set_sub n a.1) a.2) ≠ .out_of_fuel := by
      intro cur n
      cases ha : self nullptr rest cur with
      | ok a =>
        simp only [Outcome.bind_ok]
        have h1 := hlen _ _ _ _ ha
        exact after_switch_enough self k hself p _ _ (by omega)
      | parse_error e => simp
      | undefined u => simp
      | out_of_fuel => exact absurd ha (hself _ _ _ (by omega))
    cases ht : tag_of c <;> simp only [ht]
    all_goals first
      | exact after_switch_enough self k hself p _ _ (by simp only [List.length_cons]; omega)
      | exact hnested _ _
      | (cases p <;> simp; split_ifs <;> simp)
      | simp

theorem create_signature_tree_loop_link (fuel : Nat) :
    ∀ first i p, create_signature_tree_loop tag_of fuel first i p =
      (create_signature_tree_loop tag_of fuel nullptr i p).bind
        fun r => .ok (link first r.1, r.2) := by
  induction fuel with
  | zero => intro first i p; rfl
  | succ k ih =>
    intro first i p
    exact create_signature_tree_body_link tag_of _ ih first i p

theorem create_signature_tree_loop_length (fuel : Nat) :
    ∀ first i p r, create_signature_tree_loop tag_of fuel first i p = .ok r →
      r.2.length ≤ i.length := by
  induction fuel with
  | zero => intro first i p r h; simp [create_signature_tree_loop] at h
  | succ k ih =>
    intro first i p r h
    exact create_signature_tree_body_length tag_of _ ih first i p r h

theorem create_signature_tree_loop_succ (fuel : Nat) :
    ∀ first i p, create_signature_tree_loop tag_of fuel first i p ≠ .out_of_fuel →
      create_signature_tree_loop tag_of (fuel + 1) first i p =
        create_signature_tree_loop tag_of fuel first i p := by
  induction fuel with
  | zero => intro first i p h; exact absurd rfl h
  | succ k ih =>
    intro first i p h
    exact create_signature_tree_body_mono tag_of _ _ ih first i p h

theorem create_signature_tree_loop_add (fuel extra : Nat) (first : SignatureNodePointer)
    (i : List Char) (p : SignatureNodePointer)
    (h : create_signature_tree_loop tag_of fuel first i p ≠ .out_of_fuel) :
    create_signature_tree_loop tag_of (fuel + extra) first i p =
      create_signature_tree_loop tag_of fuel first i p := by
  induction extra with
  | zero => rfl
  | succ k ih =>
    rw [← Nat.add_assoc, create_signature_tree_loop_succ tag_of _ _ _ _ (by rw [ih]; exact h), ih]

theorem create_signature_tree_loop_enough (fuel : Nat) :
    ∀ first i p, List.length i < fuel →
      create_signature_tree_loop tag_of fuel first i p ≠ .out_of_fuel := by
  induction fuel with
  | zero => intro first i p h; omega
  | succ k ih =>
    intro first i p h
    exact create_signature_tree_body_enough tag_of _ k
      (create_signature_tree_loop_length tag_of k) ih first i p h

/-- With fuel above the length of the text the loop is the fuel-free function, entered with
the chain built so far. -/
theorem create_signature_tree_loop_eq (fuel : Nat) (first : SignatureNodePointer)
    (i : List Char) (p : SignatureNodePointer) (h : i.length < fuel) :
    create_signature_tree_loop tag_of fuel first i p =
      (create_signature_tree tag_of i p).bind fun r => .ok (link first r.1, r.2) := by
  rw [create_signature_tree_loop_link]
  obtain ⟨extra, rfl⟩ : ∃ extra, fuel = (i.length + 1) + extra := ⟨fuel - (i.length + 1), by omega⟩
  rw [create_signature_tree_loop_add tag_of _ _ _ _ _
    (create_signature_tree_loop_enough tag_of _ _ _ _ (by omega))]
  rfl

/-- The parser ends on every text: it never runs out of the fuel it is given. -/
theorem create_signature_tree_ne_out_of_fuel (i : List Char) (p : SignatureNodePointer) :
    create_signature_tree tag_of i p ≠ .out_of_fuel :=
  create_signature_tree_loop_enough tag_of _ _ _ _ (by omega)

theorem create_signature_tree_length (i : List Char) (p : SignatureNodePointer)
    (r : SignatureNodePointer × List Char) (h : create_signature_tree tag_of i p = .ok r) :
    r.2.length ≤ i.length :=
  create_signature_tree_loop_length tag_of _ _ _ _ _ h

/-- The function is a fixed point of its body: one pass of the loop whose nested call and whose
remaining passes are the function itself. -/
theorem create_signature_tree_unfold (i : List Char) (p : SignatureNodePointer) :
    create_signature_tree tag_of i p =
      create_signature_tree_body tag_of
        (fun first j q => (create_signature_tree tag_of j q).bind
          fun r => .ok (link first r.1, r.2)) nullptr i p := by
  unfold create_signature_tree
  show create_signature_tree_body tag_of (create_signature_tree_loop tag_of i.length) nullptr i p = _
  cases i with
  | nil => rfl
  | cons c rest =>
    simp only [create_signature_tree_body]
    have h1 : ∀ q, create_signature_tree_loop tag_of (c :: rest).length nullptr rest q =
        (create_signature_tree tag_of rest q).bind fun r => .ok (link nullptr r.1, r.2) :=
      fun q => create_signature_tree_loop_eq tag_of _ _ _ _ (by simp)
    have hafter : ∀ n itr, itr.length ≤ (c :: rest).length →
        after_switch (fun f i => create_signature_tree_loop tag_of (c :: rest).length f i p) p n itr =
        after_switch (fun f i => (fun first j q => (create_signature_tree tag_of j q).bind
          fun r => .ok (link first r.1, r.2)) f i p) p n itr := by
      intro n itr hitr
      unfold after_switch
      split_ifs
      · rfl
      · cases itr with
        | nil => rfl
        | cons d itr2 =>
          simp only [List.length_cons] at hitr
          exact create_signature_tree_loop_eq tag_of _ _ _ _ (by simp only [List.length_cons]; omega)
    have hnested : ∀ cur n,
        ((create_signature_tree_loop tag_of (c :: rest).length nullptr rest cur).bind fun a =>
          after_switch (fun f i => create_signature_tree_loop tag_of (c :: rest).length f i p) p
            (set_sub n a.1) a.2) =
        (((fun first j q => (create_signature_tree tag_of j q).bind
          fun r => .ok (link first r.1, r.2)) nullptr rest cur).bind fun a =>
          after_switch (fun f i => (fun first j q => (create_signature_tree tag_of j q).bind
            fun r => .ok (link first r.1, r.2)) f i p) p (set_sub n a.1) a.2) := by
      intro cur n
      have hlen := create_signature_tree_loop_length tag_of (c :: rest).length nullptr rest cur
      rw [h1] at hlen ⊢
      beta_reduce
      generalize (create_signature_tree tag_of rest cur).bind
          (fun r => Outcome.ok (link nullptr r.1, r.2)) = x at hlen ⊢
      cases x with
      | ok a =>
        simp only [Outcome.bind_ok]
        have := hlen a rfl
        exact hafter (set_sub n a.1) a.2 (by simp only [List.length_cons]; omega)
      | parse_error e => rfl
      | undefined u => rfl
      | out_of_fuel => rfl
    cases ht : tag_of c <;> simp only []
    all_goals first
      | exact hafter _ _ (le_refl _)
      | exact hnested _ _

/-! ### The function, one character at a time -/

theorem Outcome.bind_ok_eta {α : Type} (x : Outcome (α × List Char)) :
    (x.bind fun r => .ok (r.1, r.2)) = x := by
  cases x <;> rfl

theorem create_signature_tree_nil (p : SignatureNodePointer) :
    create_signature_tree tag_of [] p = end_of_input nullptr p := rfl

theorem create_signature_tree_plain (c : Char) (rest : List Char) (p : SignatureNodePointer)
    (h : (tag_of c).is_plain = true) :
    create_signature_tree tag_of (c :: rest) p =
      if p.has_type .ARRAY then .ok (node (tag_of c) nullptr nullptr, c :: rest)
      else (create_signature_tree tag_of rest p).bind
        fun r => .ok (node (tag_of c) nullptr r.1, r.2) := by
  rw [create_signature_tree_unfold]
  simp only [create_signature_tree_body]
  cases ht : tag_of c <;> simp [ht, DataType.is_plain] at h <;>
    simp [after_switch, create_signature_node, new_node, link]

theorem create_signature_tree_opens (c : Char) (rest : List Char) (p : SignatureNodePointer)
    (ty : DataType) (h : (tag_of c).opens = some ty) :
    create_signature_tree tag_of (c :: rest) p =
      (create_signature_tree tag_of rest (node ty nullptr nullptr)).bind fun a =>
        if p.has_type .ARRAY then .ok (node ty a.1 nullptr, a.2)
        else
          match a.2 with
          | [] => .undefined .increment_past_end
          | _ :: itr2 => (create_signature_tree tag_of itr2 p).bind
              fun r => .ok (node ty a.1 r.1, r.2) := by
  rw [create_signature_tree_unfold]
  simp only [create_signature_tree_body]
  cases ht : tag_of c <;> simp [ht, DataType.opens] at h <;> subst h <;>
    simp only [after_switch, create_signature_node, new_node, current_node, link, set_sub,
      Option.getD, reduceCtorEq, or_self, if_false, if_true, Outcome.bind_assoc,
      Outcome.bind_ok, Outcome.bind_ok_eta]

theorem create_signature_tree_struct_end (c : Char) (rest : List Char)
    (p : SignatureNodePointer) (h : tag_of c = .STRUCT_END) :
    create_signature_tree tag_of (c :: rest) p =
      match p with
      | nullptr => .undefined .null_parent_dereference
      | node t _ _ =>
        if t ≠ .STRUCT then .parse_error .struct_end_without_begin
        else .ok (nullptr, c :: rest) := by
  rw [create_signature_tree_unfold]
  simp only [create_signature_tree_body, h]
  rfl

theorem create_signature_tree_dict_entry_end (c : Char) (rest : List Char)
    (p : SignatureNodePointer) (h : tag_of c = .DICT_ENTRY_END) :
    create_signature_tree tag_of (c :: rest) p =
      match p with
      | nullptr => .undefined .null_parent_dereference
      | node t _ _ =>
        if t ≠ .DICT_ENTRY then .parse_error .dict_entry_end_without_begin
        else .ok (nullptr, c :: rest) := by
  rw [create_signature_tree_unfold]
  simp only [create_signature_tree_body, h]
  rfl

theorem create_signature_tree_invalid (c : Char) (rest : List Char)
    (p : SignatureNodePointer) (h : tag_of c = .INVALID) :
    create_signature_tree tag_of (c :: rest) p = .parse_error .unknown_data_type := by
  rw [create_signature_tree_unfold]
  simp only [create_signature_tree_body, h]

/-! ### The function against the relation `Parses` -/

theorem Parses.nullptr_text {tag_of : Char → DataType} {s : List Char}
    (h : Parses tag_of s nullptr) : s = [] := by
  cases h; rfl

/-- Soundness: on a text that starts with a sequence of complete types, a call under a parent
other than `ARRAY` links the tree of that sequence and carries on with the rest; a call under
an `ARRAY` parent returns after one complete type, the iterator on its last character. -/
theorem create_signature_tree_of_parses {s : List Char} {ch : SignatureNodePointer}
    (h : Parses tag_of s ch) :
    (∀ k p, p.has_type .ARRAY = false →
      create_signature_tree tag_of (s ++ k) p =
        (create_signature_tree tag_of k p).bind fun r => .ok (link ch r.1, r.2)) ∧
    (∀ ty sb, ch = node ty sb nullptr → ∀ k p, p.has_type .ARRAY = true →
      ∃ e, create_signature_tree tag_of (s ++ k) p = .ok (ch, e :: k)) := by
  induction h with
  | nil =>
    refine ⟨fun k p _ => ?_, fun ty sb h => by cases h⟩
    have h2 := Outcome.bind_ok_eta (create_signature_tree tag_of k p)
    simp only [Prod.mk.eta] at h2
    simp [h2]
  | plain c s next hc hs ih =>
    refine ⟨fun k p hp => ?_, fun ty sb hch k p hp => ?_⟩
    · rw [List.cons_append, create_signature_tree_plain tag_of _ _ _ hc, ih.1 k p hp]
      simp [hp, Outcome.bind_assoc, link]
    · injection hch with _ _ hn
      subst hn
      have := hs.nullptr_text
      subst this
      exact ⟨c, by rw [List.cons_append, create_signature_tree_plain tag_of _ _ _ hc]; simp [hp]⟩
  | array c t s ty sb next hc ht hs iht ihs =>
    have hop : (tag_of c).opens = some .ARRAY := by rw [hc]; rfl
    refine ⟨fun k p hp => ?_, fun ty2 sb2 hch k p hp => ?_⟩
    · obtain ⟨e, he⟩ := iht.2 ty sb rfl (s ++ k) (node .ARRAY nullptr nullptr) rfl
      rw [List.cons_append, create_signature_tree_opens tag_of _ _ _ _ hop, List.append_assoc, he]
      simp [hp, ihs.1 k p hp, Outcome.bind_assoc, link]
    · injection hch with _ _ hn
      subst hn
      have := hs.nullptr_text
      subst this
      obtain ⟨e, he⟩ := iht.2 ty sb rfl k (node .ARRAY nullptr nullptr) rfl
      refine ⟨e, ?_⟩
      rw [List.cons_append, create_signature_tree_opens tag_of _ _ _ _ hop, List.append_nil, he]
      simp [hp]
  | struct c e f s sub next hc he hf hs ihf ihs =>
    have hop : (tag_of c).opens = some .STRUCT := by rw [hc]; rfl
    have hsub : ∀ k, create_signature_tree tag_of (f ++ e :: k) (node .STRUCT nullptr nullptr) =
        .ok (sub, e :: k) := by
      intro k
      rw [ihf.1 (e :: k) (node .STRUCT nullptr nullptr) rfl,
        create_signature_tree_struct_end tag_of _ _ _ he]
      simp
    refine ⟨fun k p hp => ?_, fun ty2 sb2 hch k p hp => ?_⟩
    · rw [List.cons_append, create_signature_tree_opens tag_of _ _ _ _ hop, List.append_assoc,
        List.cons_append, hsub]
      simp [hp, ihs.1 k p hp, Outcome.bind_assoc, link]
    · injection hch with _ _ hn
      subst hn
      have := hs.nullptr_text
      subst this
      refine ⟨e, ?_⟩
      rw [List.cons_append, create_signature_tree_opens tag_of _ _ _ _ hop, List.append_assoc,
        List.cons_append, List.nil_append, hsub]
      simp [hp]
  | dict_entry c e f s sub next hc he hf hs ihf ihs =>
    have hop : (tag_of c).opens = some .DICT_ENTRY := by rw [hc]; rfl
    have hsub : ∀ k, create_signature_tree tag_of (f ++ e :: k)
        (node .DICT_ENTRY nullptr nullptr) = .ok (sub, e :: k) := by
      intro k
      rw [ihf.1 (e :: k) (node .DICT_ENTRY nullptr nullptr) rfl,
        create_signature_tree_dict_entry_end tag_of _ _ _ he]
      simp
    refine ⟨fun k p hp => ?_, fun ty2 sb2 hch k p hp => ?_⟩
    · rw [List.cons_append, create_signature_tree_opens tag_of _ _ _ _ hop, List.append_assoc,
        List.cons_append, hsub]
      simp [hp, ihs.1 k p hp, Outcome.bind_assoc, link]
    · injection hch with _ _ hn
      subst hn
      have := hs.nullptr_text
      subst this
      refine ⟨e, ?_⟩
      rw [List.cons_append, create_signature_tree_opens tag_of _ _ _ _ hop, List.append_assoc,
        List.cons_append, List.nil_append, hsub]
      simp [hp]

theorem DataType.classify (d : DataType) :
    d.is_plain = true ∨ (d = .ARRAY ∧ d.opens = some .ARRAY) ∨
      (d = .STRUCT_BEGIN ∧ d.opens = some .STRUCT) ∨
      (d = .DICT_ENTRY_BEGIN ∧ d.opens = some .DICT_ENTRY) ∨
      d = .STRUCT_END ∨ d = .DICT_ENTRY_END ∨ d = .INVALID := by
  cases d <;> simp [DataType.is_plain, DataType.opens]

/-- Completeness: whenever a call returns, the text it has read is a sequence of complete
types with the returned chain as its tree (parent other than `ARRAY`), or one complete type
(parent `ARRAY`, unless the call returns with the iterator at `end_itr`). -/
theorem parses_of_create_signature_tree (n : Nat) :
    ∀ i : List Char, i.length ≤ n → ∀ p ch i2,
      create_signature_tree tag_of i p = .ok (ch, i2) →
      (p.has_type .ARRAY = false →
        ∃ s, i = s ++ i2 ∧ Parses tag_of s ch ∧ Closes tag_of p i2) ∧
      (p.has_type .ARRAY = true → i2 = [] ∨
        ∃ t e k ty sb, i = t ++ k ∧ i2 = e :: k ∧ ch = node ty sb nullptr ∧
          Parses tag_of t ch) := by
  induction n with
  | zero =>
    intro i hi p ch i2 h
    have hnil : i = [] := List.length_eq_zero.mp (by omega)
    subst hnil
    rw [create_signature_tree_nil] at h
    unfold end_of_input at h
    split_ifs at h with h1 h2
    cases h
    exact ⟨fun _ => ⟨[], rfl, .nil, Or.inl ⟨rfl, by simpa using h1, by simpa using h2⟩⟩,
      fun _ => Or.inl rfl⟩
  | succ n ih =>
    intro i hi p ch i2 h
    cases i with
    | nil => exact ih [] (by simp) p ch i2 h
    | cons c rest =>
      have hrest : rest.length ≤ n := by simp only [List.length_cons] at hi; omega
      -- the nested call of a character that opens a container, and the rest of the loop
      have hopen : ∀ ty, (tag_of c).opens = some ty →
          ∃ a1 a2, create_signature_tree tag_of rest (node ty nullptr nullptr) = .ok (a1, a2) ∧
            ((p.has_type .ARRAY = true ∧ ch = node ty a1 nullptr ∧ i2 = a2) ∨
             (p.has_type .ARRAY = false ∧ ∃ d itr2 r1, a2 = d :: itr2 ∧
               create_signature_tree tag_of itr2 p = .ok (r1, i2) ∧ ch = node ty a1 r1 ∧
               itr2.length ≤ n)) := by
        intro ty hty
        rw [create_signature_tree_opens tag_of _ _ _ _ hty] at h
        obtain ⟨⟨a1, a2⟩, ha, hb⟩ := Outcome.bind_eq_ok h
        refine ⟨a1, a2, ha, ?_⟩
        have hlen := create_signature_tree_length tag_of _ _ _ ha
        by_cases hp : p.has_type .ARRAY = true
        · simp only [hp, if_true, Outcome.ok.injEq, Prod.mk.injEq] at hb
          exact Or.inl ⟨hp, hb.1.symm, hb.2.symm⟩
        · have hp2 : p.has_type .ARRAY = false := by simpa using hp
          simp only [hp2, Bool.false_eq_true, if_false] at hb
          cases a2 with
          | nil => simp at hb
          | cons d itr2 =>
            simp only at hb
            obtain ⟨⟨r1, r2⟩, hr, hb2⟩ := Outcome.bind_eq_ok hb
            simp only [Outcome.ok.injEq, Prod.mk.injEq] at hb2
            obtain ⟨h1, h2⟩ := hb2
            subst h2
            simp only [List.length_cons] at hlen
            exact Or.inr ⟨hp2, d, itr2, r1, rfl, hr, h1.symm, by omega⟩
      rcases DataType.classify (tag_of c) with hc | ⟨hc, hop⟩ | ⟨hc, hop⟩ | ⟨hc, hop⟩ | hc | hc | hc
      · -- a plain character
        rw [create_signature_tree_plain tag_of _ _ _ hc] at h
        by_cases hp : p.has_type .ARRAY = true
        · simp only [hp, if_true, Outcome.ok.injEq, Prod.mk.injEq] at h
          obtain ⟨h1, h2⟩ := h
          subst h1; subst h2
          refine ⟨fun hp2 => (by rw [hp] at hp2; cases hp2), fun _ => Or.inr ?_⟩
          exact ⟨[c], c, rest, _, _, rfl, rfl, rfl, .plain c [] nullptr hc .nil⟩
        · have hp2 : p.has_type .ARRAY = false := by simpa using hp
          simp only [hp2, Bool.false_eq_true, if_false] at h
          obtain ⟨⟨r1, r2⟩, hr, hb⟩ := Outcome.bind_eq_ok h
          simp only [Outcome.ok.injEq, Prod.mk.injEq] at hb
          obtain ⟨h1, h2⟩ := hb
          subst h1; subst h2
          obtain ⟨s, hs, hps, hcl⟩ := (ih rest hrest p r1 r2 hr).1 hp2
          refine ⟨fun _ => ⟨c :: s, by rw [hs]; rfl, .plain c s r1 hc hps, hcl⟩,
            fun hp3 => by rw [hp2] at hp3; cases hp3⟩
      · -- an array
        obtain ⟨a1, a2, ha, hcase⟩ := hopen _ hop
        have hsub := (ih rest hrest _ a1 a2 ha).2 rfl
        rcases hcase with ⟨hp, hch, hi2⟩ | ⟨hp, d, itr2, r1, ha2, hr, hch, hlen⟩
        · subst hch; subst hi2
          refine ⟨fun hp2 => (by rw [hp] at hp2; cases hp2), fun _ => ?_⟩
          rcases hsub with hnil | ⟨t, e, k, ty, sb, ht, he, hty, hpt⟩
          · exact Or.inl hnil
          · subst hty
            refine Or.inr ⟨c :: t, e, k, _, _, by rw [ht]; rfl, he, rfl, ?_⟩
            have := Parses.array c t [] ty sb nullptr hc hpt .nil
            simpa using this
        · subst hch
          refine ⟨fun _ => ?_, fun hp3 => by rw [hp] at hp3; cases hp3⟩
          rcases hsub with hnil | ⟨t, e, k, ty, sb, ht, he, hty, hpt⟩
          · rw [ha2] at hnil; cases hnil
          · subst hty
            rw [ha2] at he
            injection he with he1 he2
            subst he2
            obtain ⟨s2, hs2, hps2, hcl⟩ := (ih itr2 hlen p r1 i2 hr).1 hp
            refine ⟨c :: (t ++ s2), ?_, .array c t s2 ty sb r1 hc hpt hps2, hcl⟩
            rw [ht, hs2]; simp
      · -- a struct
        obtain ⟨a1, a2, ha, hcase⟩ := hopen _ hop
        obtain ⟨s, hs, hps, hcl⟩ := (ih rest hrest _ a1 a2 ha).1 rfl
        have hend : ∃ e k, a2 = e :: k ∧ tag_of e = .STRUCT_END := by
          rcases hcl with ⟨_, h1, _⟩ | ⟨e, k, he, ⟨_, h1⟩ | ⟨h1, _⟩⟩
          · simp [has_type] at h1
          · exact ⟨e, k, he, h1⟩
          · simp [has_type] at h1
        obtain ⟨e, k, he, hte⟩ := hend
        subst he
        rcases hcase with ⟨hp, hch, hi2⟩ | ⟨hp, d, itr2, r1, ha2, hr, hch, hlen⟩
        · subst hch; subst hi2
          refine ⟨fun hp2 => (by rw [hp] at hp2; cases hp2), fun _ => Or.inr ?_⟩
          refine ⟨c :: (s ++ [e]), e, k, _, _, (by rw [hs]; simp), rfl, rfl, ?_⟩
          exact .struct c e s [] a1 nullptr hc hte hps .nil
        · subst hch
          injection ha2 with ha3 ha4
          subst ha3; subst ha4
          refine ⟨fun _ => ?_, fun hp3 => by rw [hp] at hp3; cases hp3⟩
          obtain ⟨s2, hs2, hps2, hcl2⟩ := (ih k hlen p r1 i2 hr).1 hp
          refine ⟨c :: (s ++ e :: s2), ?_, .struct c e s s2 a1 r1 hc hte hps hps2, hcl2⟩
          rw [hs, hs2]; simp
      · -- a dict entry
        obtain ⟨a1, a2, ha, hcase⟩ := hopen _ hop
        obtain ⟨s, hs, hps, hcl⟩ := (ih rest hrest _ a1 a2 ha).1 rfl
        have hend : ∃ e k, a2 = e :: k ∧ tag_of e = .DICT_ENTRY_END := by
          rcases hcl with ⟨_, _, h1⟩ | ⟨e, k, he, ⟨h1, _⟩ | ⟨_, h1⟩⟩
          · simp [has_type] at h1
          · simp [has_type] at h1
          · exact ⟨e, k, he, h1⟩
        obtain ⟨e, k, he, hte⟩ := hend
        subst he
        rcases hcase with ⟨hp, hch, hi2⟩ | ⟨hp, d, itr2, r1, ha2, hr, hch, hlen⟩
        · subst hch; subst hi2
          refine ⟨fun hp2 => (by rw [hp] at hp2; cases hp2), fun _ => Or.inr ?_⟩
          refine ⟨c :: (s ++ [e]), e, k, _, _, (by rw [hs]; simp), rfl, rfl, ?_⟩
          exact .dict_entry c e s [] a1 nullptr hc hte hps .nil
        · subst hch
          injection ha2 with ha3 ha4
          subst ha3; subst ha4
          refine ⟨fun _ => ?_, fun hp3 => by rw [hp] at hp3; cases hp3⟩
          obtain ⟨s2, hs2, hps2, hcl2⟩ := (ih k hlen p r1 i2 hr).1 hp
          refine ⟨c :: (s ++ e :: s2), ?_, .dict_entry c e s s2 a1 r1 hc hte hps hps2, hcl2⟩
          rw [hs, hs2]; simp
      · -- the end of a struct
        rw [create_signature_tree_struct_end tag_of _ _ _ hc] at h
        cases p with
        | nullptr => simp at h
        | node t sb nx =>
          simp only at h
          split_ifs at h with ht
          simp only [Outcome.ok.injEq, Prod.mk.injEq] at h
          obtain ⟨h1, h2⟩ := h
          subst h1; subst h2
          have ht2 : t = .STRUCT := by simpa using ht
          subst ht2
          refine ⟨fun _ => ⟨[], rfl, .nil, Or.inr ⟨c, rest, rfl, Or.inl ⟨rfl, hc⟩⟩⟩,
            fun hp => by simp [has_type] at hp⟩
      · -- the end of a dict entry
        rw [create_signature_tree_dict_entry_end tag_of _ _ _ hc] at h
        cases p with
        | nullptr => simp at h
        | node t sb nx =>
          simp only at h
          split_ifs at h with ht
          simp only [Outcome.ok.injEq, Prod.mk.injEq] at h
          obtain ⟨h1, h2⟩ := h
          subst h1; subst h2
          have ht2 : t = .DICT_ENTRY := by simpa using ht
          subst ht2
          refine ⟨fun _ => ⟨[], rfl, .nil, Or.inr ⟨c, rest, rfl, Or.inr ⟨rfl, hc⟩⟩⟩,
            fun hp => by simp [has_type] at hp⟩
      · -- an unknown character
        rw [create_signature_tree_invalid tag_of _ _ _ hc] at h
        cases h

/-- At top level the parser returns exactly the trees of `Parses`, with the iterator at
`end_itr`. -/
theorem create_signature_tree_top_iff (i : List Char) (ch : SignatureNodePointer)
    (i2 : List Char) :
    create_signature_tree tag_of i nullptr = .ok (ch, i2) ↔ Parses tag_of i ch ∧ i2 = [] := by
  constructor
  · intro h
    obtain ⟨s, hs, hps, hcl⟩ := (parses_of_create_signature_tree tag_of _ i (le_refl _) _ _ _ h).1 rfl
    rcases hcl with ⟨h1, _, _⟩ | ⟨e, k, _, ⟨h1, _⟩ | ⟨h1, _⟩⟩
    · subst h1
      rw [List.append_nil] at hs
      subst hs
      exact ⟨hps, rfl⟩
    · simp [has_type] at h1
    · simp [has_type] at h1
  · rintro ⟨h, rfl⟩
    have := (create_signature_tree_of_parses tag_of h).1 [] nullptr rfl
    rw [List.append_nil, create_signature_tree_nil] at this
    rw [this]
    simp [end_of_input, has_type]

/-- The tree of a text is unique. -/
theorem Parses.unique {tag_of : Char → DataType} {s : List Char}
    {c1 c2 : SignatureNodePointer} (h1 : Parses tag_of s c1) (h2 : Parses tag_of s c2) :
    c1 = c2 := by
  have e1 := (create_signature_tree_top_iff tag_of s c1 []).2 ⟨h1, rfl⟩
  have e2 := (create_signature_tree_top_iff tag_of s c2 []).2 ⟨h2, rfl⟩
  rw [e1] at e2
  injection e2 with e3
  injection e3

theorem Parses.append {tag_of : Char → DataType} {s1 s2 : List Char}
    {c1 c2 : SignatureNodePointer} (h1 : Parses tag_of s1 c1) (h2 : Parses tag_of s2 c2) :
    Parses tag_of (s1 ++ s2) (link c1 c2) := by
  induction h1 with
  | nil => exact h2
  | plain c s next hc _ ih => exact .plain c _ _ hc ih
  | array c t s ty sb next hc ht _ _ ihs =>
    have := Parses.array c t (s ++ s2) ty sb _ hc ht ihs
    simpa [link, List.append_assoc] using this
  | struct c e f s sub next hc he hf _ _ ihs =>
    have := Parses.struct c e f (s ++ s2) sub _ hc he hf ihs
    simpa [link, List.append_assoc] using this
  | dict_entry c e f s sub next hc he hf _ _ ihs =>
    have := Parses.dict_entry c e f (s ++ s2) sub _ hc he hf ihs
    simpa [link, List.append_assoc] using this

end fuel

section grammar

theorem lookup_some_mem {l : List (Char × DataType)} {c : Char} {d : DataType}
    (h : l.lookup c = some d) : (c, d) ∈ l := by
  induction l with
  | nil => simp at h
  | cons e es ih =>
    obtain ⟨k, b⟩ := e
    by_cases hk : c = k
    · subst hk
      simp at h
      subst h
      simp
    · have : (c == k) = false := by simpa using hk
      simp [List.lookup, this] at h
      exact List.mem_cons_of_mem _ (ih h)

theorem lookup_none_not_mem {l : List (Char × DataType)} {c : Char}
    (h : l.lookup c = none) : c ∉ l.map Prod.fst := by
  induction l with
  | nil => simp
  | cons e es ih =>
    obtain ⟨k, b⟩ := e
    by_cases hk : c = k
    · subst hk
      simp at h
    · have : (c == k) = false := by simpa using hk
      simp only [List.lookup, this] at h
      simp only [List.map_cons, List.mem_cons, not_or]
      exact ⟨hk, ih h⟩

theorem char_to_dbus_type_mem (c : Char) (h : char_to_dbus_type c ≠ .INVALID) :
    (c, char_to_dbus_type c) ∈ dbus_type_table := by
  unfold char_to_dbus_type at h ⊢
  cases hl : dbus_type_table.lookup c with
  | none => rw [hl] at h; exact absurd rfl h
  | some d => exact lookup_some_mem hl

theorem char_to_dbus_type_array (c : Char) : char_to_dbus_type c = .ARRAY ↔ c = 'a' := by
  constructor
  · intro h
    have hm := char_to_dbus_type_mem c (by rw [h]; decide)
    rw [h] at hm
    have : ∀ e ∈ dbus_type_table, e.2 = .ARRAY → e.1 = 'a' := by decide
    exact this _ hm rfl
  · rintro rfl; decide

theorem char_to_dbus_type_is_plain (c : Char) :
    (char_to_dbus_type c).is_plain = is_basic_char c := by
  by_cases h : char_to_dbus_type c = .INVALID
  · rw [h]
    unfold char_to_dbus_type at h
    cases hl : dbus_type_table.lookup c with
    | some d => 
      have hm := lookup_some_mem hl
      rw [hl] at h
      simp only at h
      subst h
      have : ∀ e ∈ dbus_type_table, e.2 ≠ .INVALID := by decide
      exact absurd rfl (this _ hm)
    | none =>
      have hn := lookup_none_not_mem hl
      have hsub : ∀ b, is_basic_char b = true → b ∈ dbus_type_table.map Prod.fst := by
        intro b hb
        unfold is_basic_char at hb
        have hb2 : b ∈ ['y', 'b', 'n', 'q', 'i', 'u', 'x', 't', 'd', 's', 'o', 'g', 'h', 'v'] := by
          simpa using hb
        have : ∀ x ∈ ['y', 'b', 'n', 'q', 'i', 'u', 'x', 't', 'd', 's', 'o', 'g', 'h', 'v'],
            x ∈ dbus_type_table.map Prod.fst := by decide
        exact this b hb2
      cases hb : is_basic_char c with
      | true => exact absurd (hsub c hb) hn
      | false => rfl
  · have hm := char_to_dbus_type_mem c h
    have : ∀ e ∈ dbus_type_table, e.2.is_plain = is_basic_char e.1 := by decide
    exact this _ hm

theorem char_to_dbus_type_struct_begin (c : Char) :
    char_to_dbus_type c = .STRUCT_BEGIN ↔ c = '(' := by
  constructor
  · intro h
    have hm := char_to_dbus_type_mem c (by rw [h]; decide)
    rw [h] at hm
    have : ∀ e ∈ dbus_type_table, e.2 = .STRUCT_BEGIN → e.1 = '(' := by decide
    exact this _ hm rfl
  · rintro rfl; decide

theorem char_to_dbus_type_struct_end (c : Char) :
    char_to_dbus_type c = .STRUCT_END ↔ c = ')' := by
  constructor
  · intro h
    have hm := char_to_dbus_type_mem c (by rw [h]; decide)
    rw [h] at hm
    have : ∀ e ∈ dbus_type_table, e.2 = .STRUCT_END → e.1 = ')' := by decide
    exact this _ hm rfl
  · rintro rfl; decide

theorem char_to_dbus_type_dict_entry_begin (c : Char) :
    char_to_dbus_type c = .DICT_ENTRY_BEGIN ↔ c = '{' := by
  constructor
  · intro h
    have hm := char_to_dbus_type_mem c (by rw [h]; decide)
    rw [h] at hm
    have : ∀ e ∈ dbus_type_table, e.2 = .DICT_ENTRY_BEGIN → e.1 = '{' := by decide
    exact this _ hm rfl
  · rintro rfl; decide

theorem char_to_dbus_type_dict_entry_end (c : Char) :
    char_to_dbus_type c = .DICT_ENTRY_END ↔ c = '}' := by
  constructor
  · intro h
    have hm := char_to_dbus_type_mem c (by rw [h]; decide)
    rw [h] at hm
    have : ∀ e ∈ dbus_type_table, e.2 = .DICT_ENTRY_END → e.1 = '}' := by decide
    exact this _ hm rfl
  · rintro rfl; decide

end grammar

section bridge

theorem parses_flatten {ts : List (List Char)}
    (h : ∀ t ∈ ts, ∃ ty sb, Parses char_to_dbus_type t (node ty sb nullptr)) :
    ∃ ch, Parses char_to_dbus_type ts.flatten ch ∧ chain_length ch = ts.length := by
  induction ts with
  | nil => exact ⟨nullptr, .nil, rfl⟩
  | cons t ts ih =>
    obtain ⟨ty, sb, ht⟩ := h t (List.mem_cons_self _ _)
    obtain ⟨ch, hch, hl⟩ := ih (fun u hu => h u (List.mem_cons_of_mem _ hu))
    refine ⟨link (node ty sb nullptr) ch, ?_, ?_⟩
    · simpa using ht.append hch
    · simp [chain_length, link, hl]

/-- A complete type of the grammar has a tree of exactly one top-level node. -/
theorem completeType_parses {t : List Char} (h : CompleteType t) :
    ∃ ty sb, Parses char_to_dbus_type t (node ty sb nullptr) := by
  induction h with
  | basic c hc =>
    exact ⟨_, _, .plain c [] nullptr (by rw [char_to_dbus_type_is_plain]; exact hc) .nil⟩
  | array t _ ih =>
    obtain ⟨ty, sb, h⟩ := ih
    have := Parses.array 'a' t [] ty sb nullptr (by decide) h .nil
    exact ⟨_, _, by simpa using this⟩
  | struct ts _ ih =>
    obtain ⟨sub, hsub, _⟩ := parses_flatten ih
    exact ⟨_, _, .struct '(' ')' ts.flatten [] sub nullptr (by decide) (by decide) hsub .nil⟩
  | dict_entry ts _ ih =>
    obtain ⟨sub, hsub, _⟩ := parses_flatten ih
    exact ⟨_, _, .dict_entry '{' '}' ts.flatten [] sub nullptr (by decide) (by decide) hsub .nil⟩

/-- A text that has a tree is a concatenation of complete types, one for each top-level
node. -/
theorem Parses.types {s : List Char} {ch : SignatureNodePointer}
    (h : Parses char_to_dbus_type s ch) :
    ∃ ts : List (List Char), (∀ t ∈ ts, CompleteType t) ∧ s = ts.flatten ∧
      ts.length = chain_length ch := by
  induction h with
  | nil => exact ⟨[], by simp, rfl, rfl⟩
  | plain c s next hc _ ih =>
    obtain ⟨ts, hts, rfl, hl⟩ := ih
    refine ⟨[c] :: ts, ?_, by simp, by simp [chain_length, hl]⟩
    intro t ht
    rcases List.mem_cons.mp ht with rfl | ht
    · exact .basic c (by rw [← char_to_dbus_type_is_plain]; exact hc)
    · exact hts t ht
  | array c t s ty sb next hc _ _ iht ihs =>
    obtain ⟨tt, htt, rfl, hlt⟩ := iht
    obtain ⟨ts, hts, rfl, hl⟩ := ihs
    have hc2 := (char_to_dbus_type_array c).1 hc
    subst hc2
    have h1 : tt.length = 1 := by simpa [chain_length] using hlt
    obtain ⟨t0, rfl⟩ := List.length_eq_one.mp h1
    refine ⟨('a' :: t0) :: ts, ?_, by simp, by simp [chain_length, hl]⟩
    intro t ht
    rcases List.mem_cons.mp ht with rfl | ht
    · exact .array t0 (htt t0 (by simp))
    · exact hts t ht
  | struct c e f s sub next hc he _ _ ihf ihs =>
    obtain ⟨tf, htf, rfl, _⟩ := ihf
    obtain ⟨ts, hts, rfl, hl⟩ := ihs
    have hc2 := (char_to_dbus_type_struct_begin c).1 hc
    have he2 := (char_to_dbus_type_struct_end e).1 he
    subst hc2; subst he2
    refine ⟨('(' :: (tf.flatten ++ [')'])) :: ts, ?_, by simp, by simp [chain_length, hl]⟩
    intro t ht
    rcases List.mem_cons.mp ht with rfl | ht
    · exact .struct tf htf
    · exact hts t ht
  | dict_entry c e f s sub next hc he _ _ ihf ihs =>
    obtain ⟨tf, htf, rfl, _⟩ := ihf
    obtain ⟨ts, hts, rfl, hl⟩ := ihs
    have hc2 := (char_to_dbus_type_dict_entry_begin c).1 hc
    have he2 := (char_to_dbus_type_dict_entry_end e).1 he
    subst hc2; subst he2
    refine ⟨('{' :: (tf.flatten ++ ['}'])) :: ts, ?_, by simp, by simp [chain_length, hl]⟩
    intro t ht
    rcases List.mem_cons.mp ht with rfl | ht
    · exact .dict_entry tf htf
    · exact hts t ht

theorem typeSeq_parses {s : List Char} (h : TypeSeq s) :
    ∃ ch, Parses char_to_dbus_type s ch := by
  obtain ⟨ts, hts, rfl⟩ := h
  obtain ⟨ch, hch, _⟩ := parses_flatten (fun t ht => completeType_parses (hts t ht))
  exact ⟨ch, hch⟩

theorem typeSeq_iff_parses (s : List Char) :
    TypeSeq s ↔ ∃ ch, Parses char_to_dbus_type s ch :=
  ⟨typeSeq_parses, fun ⟨_, h⟩ => by obtain ⟨ts, hts, hs, _⟩ := h.types; exact ⟨ts, hts, hs⟩⟩

theorem completeType_iff_parses (t : List Char) :
    CompleteType t ↔ ∃ ty sb, Parses char_to_dbus_type t (node ty sb nullptr) := by
  refine ⟨completeType_parses, fun ⟨ty, sb, h⟩ => ?_⟩
  obtain ⟨ts, hts, hs, hl⟩ := h.types
  have h1 : ts.length = 1 := by simpa [chain_length] using hl
  obtain ⟨t0, rfl⟩ := List.length_eq_one.mp h1
  have : t = t0 := by simpa using hs
  subst this
  exact hts _ (by simp)

/-- The parser accepts exactly the well-formed type sequences of the grammar. -/
theorem create_signature_tree_ok_iff_typeSeq (s : List Char) :
    (∃ r, create_signature_tree char_to_dbus_type s nullptr = .ok r) ↔ TypeSeq s := by
  rw [typeSeq_iff_parses]
  constructor
  · rintro ⟨⟨ch, i2⟩, h⟩
    exact ⟨ch, ((create_signature_tree_top_iff _ _ _ _).1 h).1⟩
  · rintro ⟨ch, h⟩
    exact ⟨(ch, []), (create_signature_tree_top_iff _ _ _ _).2 ⟨h, rfl⟩⟩

end bridge

section facade

variable (tag_of : Char → DataType)

theorem Signature.of_string_eq (s : List Char) :
    Signature.of_string tag_of s =
      match create_signature_tree tag_of s nullptr with
      | .ok r => .ok { m_signature := s, m_startingNode := r.1, m_valid := true }
      | .parse_error _ => .ok { m_signature := s, m_startingNode := nullptr, m_valid := false }
      | .undefined u => .undefined u
      | .out_of_fuel => .out_of_fuel := rfl

theorem Signature.of_string_of_ok {s : List Char} {r : SignatureNodePointer × List Char}
    (h : create_signature_tree tag_of s nullptr = .ok r) :
    Signature.of_string tag_of s =
      .ok { m_signature := s, m_startingNode := r.1, m_valid := true } := by
  rw [Signature.of_string_eq, h]

theorem Signature.of_string_of_parse_error {s : List Char} {e : ErrorUnableToParse}
    (h : create_signature_tree tag_of s nullptr = .parse_error e) :
    Signature.of_string tag_of s =
      .ok { m_signature := s, m_startingNode := nullptr, m_valid := false } := by
  rw [Signature.of_string_eq, h]

/-- The constructor returns a valid Signature exactly on the texts that the parser accepts. -/
theorem Signature.of_string_valid_iff (s : List Char) :
    (∃ sig, Signature.of_string tag_of s = .ok sig ∧ sig.is_valid = true) ↔
      ∃ r, create_signature_tree tag_of s nullptr = .ok r := by
  rw [Signature.of_string_eq]
  cases h : create_signature_tree tag_of s nullptr with
  | ok r => simp [Signature.is_valid]
  | parse_error e => simp [Signature.is_valid]
  | undefined u => simp
  | out_of_fuel => simp

end facade

/-- The constructor returns a valid Signature exactly on the well-formed type sequences. -/
theorem Signature.of_string_valid_iff_typeSeq (s : List Char) :
    (∃ sig, Signature.of_string char_to_dbus_type s = .ok sig ∧ sig.is_valid = true) ↔
      TypeSeq s := by
  rw [Signature.of_string_valid_iff, create_signature_tree_ok_iff_typeSeq]

/-- The constructor returns a singleton Signature exactly on the complete types. -/
theorem Signature.of_string_singleton_iff_completeType (s : List Char) :
    (∃ sig, Signature.of_string char_to_dbus_type s = .ok sig ∧ sig.is_singleton = true) ↔
      CompleteType s := by
  rw [completeType_iff_parses, Signature.of_string_eq]
  cases h : create_signature_tree char_to_dbus_type s nullptr with
  | ok r =>
    obtain ⟨ch, i2⟩ := r
    obtain ⟨hp, _⟩ := (create_signature_tree_top_iff _ _ _ _).1 h
    constructor
    · rintro ⟨sig, hsig, hs⟩
      simp only [Outcome.ok.injEq] at hsig
      subst hsig
      cases ch with
      | nullptr => simp [Signature.is_singleton] at hs
      | node t sb nx =>
        simp only [Signature.is_singleton, Bool.true_and, Bool.and_eq_true, beq_iff_eq] at hs
        obtain ⟨_, hnx⟩ := hs
        subst hnx
        exact ⟨t, sb, hp⟩
    · rintro ⟨ty, sb, hp2⟩
      have := hp.unique hp2
      subst this
      refine ⟨_, rfl, ?_⟩
      have hne : ty ≠ .INVALID := by
        cases hp2 with
        | plain c s next hc _ => intro h0; rw [h0] at hc; cases hc
        | array => intro h0; cases h0
        | struct => intro h0; cases h0
        | dict_entry => intro h0; cases h0
      simp [Signature.is_singleton, hne]
  | parse_error e =>
    constructor
    · rintro ⟨sig, hsig, hs⟩
      simp only [Outcome.ok.injEq] at hsig
      subst hsig
      simp [Signature.is_singleton] at hs
    · rintro ⟨ty, sb, hp2⟩
      rw [(create_signature_tree_top_iff _ _ _ _).2 ⟨hp2, rfl⟩] at h
      cases h
  | undefined u =>
    constructor
    · rintro ⟨sig, hsig, _⟩; cases hsig
    · rintro ⟨ty, sb, hp2⟩
      rw [(create_signature_tree_top_iff _ _ _ _).2 ⟨hp2, rfl⟩] at h
      cases h
  | out_of_fuel =>
    constructor
    · rintro ⟨sig, hsig, _⟩; cases hsig
    · rintro ⟨ty, sb, hp2⟩
      rw [(create_signature_tree_top_iff _ _ _ _).2 ⟨hp2, rfl⟩] at h
      cases h

theorem typeSeq_nil : TypeSeq [] := ⟨[], by simp, rfl⟩

theorem completeType_i : CompleteType ['i'] := .basic 'i' (by decide)

theorem typeSeq_i : TypeSeq ['i'] :=
  ⟨[['i']], by intro t ht; rw [List.mem_singleton.mp ht]; exact completeType_i, rfl⟩

theorem typeSeq_ii : TypeSeq ['i', 'i'] :=
  ⟨[['i'], ['i']], by
    intro t ht
    rcases List.mem_cons.mp ht with rfl | ht
    · exact completeType_i
    · rw [List.mem_singleton.mp ht]; exact completeType_i, rfl⟩

theorem Parses.array_children {tag_of : Char → DataType} {s : List Char}
    {ch : SignatureNodePointer} (h : Parses tag_of s ch) : ch.arrays_have_one_child = true := by
  induction h with
  | nil => rfl
  | plain c s next hc _ ih =>
    have hne : tag_of c ≠ .ARRAY := by intro h0; rw [h0] at hc; cases hc
    simp [SignatureNodePointer.arrays_have_one_child, ih, hne]
  | array c t s ty sb next _ _ _ iht ihs =>
    simp [SignatureNodePointer.arrays_have_one_child, ihs] at iht ⊢
    exact iht
  | struct c e f s sub next _ _ _ _ ihf ihs =>
    simp [SignatureNodePointer.arrays_have_one_child, ihf, ihs]
  | dict_entry c e f s sub next _ _ _ _ ihf ihs =>
    simp [SignatureNodePointer.arrays_have_one_child, ihf, ihs]

/-! ## The claims -/

/-- C1: `Signature(text).is_valid()` is not `false` on every ill-formed text.  On `)` the
parser reads `parent_node->m_dataType` while `parent_node` is null, and on `a` it moves the
iterator past `end_itr`; neither text is a well-formed type sequence, and in both cases the
constructor performs an undefined operation instead of returning an invalid Signature. -/
theorem is_valid_undefined_on_ill_formed_text :
    (¬ TypeSeq [')'] ∧
      Signature.of_string char_to_dbus_type [')'] = .undefined .null_parent_dereference) ∧
    (¬ TypeSeq ['a'] ∧
      Signature.of_string char_to_dbus_type ['a'] = .undefined .increment_past_end) := by
  refine ⟨⟨fun h => ?_, by decide⟩, ⟨fun h => ?_, by decide⟩⟩
  · obtain ⟨r, hr⟩ := (create_signature_tree_ok_iff_typeSeq _).2 h
    have : create_signature_tree char_to_dbus_type [')'] nullptr =
        .undefined .null_parent_dereference := by decide
    rw [this] at hr
    cases hr
  · obtain ⟨r, hr⟩ := (create_signature_tree_ok_iff_typeSeq _).2 h
    have : create_signature_tree char_to_dbus_type ['a'] nullptr =
        .undefined .increment_past_end := by decide
    rw [this] at hr
    cases hr

/-- C2, as the code has it: a Signature that a text constructor returns stores the text, is
valid exactly when the parse of the stored text succeeds, and has the chain of that parse as
its root, a null root when the parse fails; a default-constructed Signature has the empty
text, a null root and is not valid. -/
theorem of_string_state (tag_of : Char → DataType) (text : List Char) (sig : Signature)
    (h : Signature.of_string tag_of text = .ok sig) :
    sig.str = text ∧
    (sig.is_valid = true ↔ ∃ r, create_signature_tree tag_of sig.str nullptr = .ok r) ∧
    (∀ r, create_signature_tree tag_of sig.str nullptr = .ok r → sig.m_startingNode = r.1) ∧
    ((∀ r, create_signature_tree tag_of sig.str nullptr ≠ .ok r) →
      sig.m_startingNode = nullptr) ∧
    Signature.default.str = [] ∧ Signature.default.m_startingNode = nullptr ∧
    Signature.default.is_valid = false := by
  rw [Signature.of_string_eq] at h
  cases hp : create_signature_tree tag_of text nullptr with
  | ok r =>
    rw [hp] at h
    simp only [Outcome.ok.injEq] at h
    subst h
    refine ⟨rfl, ?_, ?_, ?_, rfl, rfl, rfl⟩
    · exact ⟨fun _ => ⟨r, hp⟩, fun _ => rfl⟩
    · intro r2 h2
      have h3 : create_signature_tree tag_of text nullptr = .ok r2 := h2
      rw [hp] at h3
      cases h3
      rfl
    · intro h2
      exact absurd hp (h2 r)
  | parse_error e =>
    rw [hp] at h
    simp only [Outcome.ok.injEq] at h
    subst h
    refine ⟨rfl, ?_, ?_, ?_, rfl, rfl, rfl⟩
    · refine ⟨fun h1 => (by cases h1), ?_⟩
      rintro ⟨r, hr⟩
      have h3 : create_signature_tree tag_of text nullptr = .ok r := hr
      rw [hp] at h3
      cases h3
    · intro r2 h2
      have h3 : create_signature_tree tag_of text nullptr = .ok r2 := h2
      rw [hp] at h3
      cases h3
    · intro _
      rfl
  | undefined u => rw [hp] at h; cases h
  | out_of_fuel => rw [hp] at h; cases h

/-- Witness for `of_string_state`: the Signature constructed from `ai`. -/
theorem of_string_state_witness :
    Signature.of_string char_to_dbus_type ['a', 'i'] =
      .ok { m_signature := ['a', 'i'],
            m_startingNode := node .ARRAY (node .INT32 nullptr nullptr) nullptr,
            m_valid := true } ∧
    (Signature.mk ['a', 'i'] (node .ARRAY (node .INT32 nullptr nullptr) nullptr) true).str =
      ['a', 'i'] :=
  ⟨by decide, (of_string_state char_to_dbus_type ['a', 'i'] _ (by decide)).1⟩

/-- C2 fails on the code: the default-constructed Signature is not valid although its empty
text parses, and an assignment stores the text without parsing it, so after `sig = "("` on a
Signature constructed from `i` both `is_valid()` and `is_singleton()` are still true while
the stored text does not parse and a fresh `Signature("(")` is neither valid nor a singleton. -/
theorem assign_does_not_reparse :
    (Signature.default.is_valid = false ∧
      create_signature_tree char_to_dbus_type Signature.default.str nullptr =
        .ok (nullptr, [])) ∧
    ∃ sig fresh,
      Signature.of_string char_to_dbus_type ['i'] = .ok sig ∧
      (sig.assign ['(']).str = ['('] ∧
      (sig.assign ['(']).is_valid = true ∧
      (sig.assign ['(']).is_singleton = true ∧
      create_signature_tree char_to_dbus_type (sig.assign ['(']).str nullptr =
        .parse_error .missing_struct_end ∧
      Signature.of_string char_to_dbus_type ['('] = .ok fresh ∧
      fresh.is_valid = false ∧ fresh.is_singleton = false :=
  ⟨⟨rfl, by decide⟩,
    ⟨{ m_signature := ['i'], m_startingNode := node .INT32 nullptr nullptr, m_valid := true },
     { m_signature := ['('], m_startingNode := nullptr, m_valid := false },
     by decide, rfl, rfl, rfl, by decide, by decide, rfl, rfl⟩⟩

/-- C3: an END character reached at top level is not rejected with a parse error: on `)`,
`i)`, `())` and on a closing brace the parser evaluates `parent_node->m_dataType` while
`parent_node` is null, which is undefined, and the constructor does not return. -/
theorem top_level_end_dereferences_null_parent :
    create_signature_tree char_to_dbus_type [')'] nullptr =
      .undefined .null_parent_dereference ∧
    create_signature_tree char_to_dbus_type ['i', ')'] nullptr =
      .undefined .null_parent_dereference ∧
    create_signature_tree char_to_dbus_type ['(', ')', ')'] nullptr =
      .undefined .null_parent_dereference ∧
    create_signature_tree char_to_dbus_type ['}'] nullptr =
      .undefined .null_parent_dereference ∧
    Signature.of_string char_to_dbus_type ['i', ')'] = .undefined .null_parent_dereference := by
  refine ⟨by decide, by decide, by decide, by decide, by decide⟩

/-- The parse of a well-formed type sequence followed by more text, under a parent other than
`ARRAY`: the chain of the sequence, linked before what the rest of the text yields. -/
theorem create_signature_tree_typeSeq_append {s : List Char} (h : TypeSeq s) :
    ∃ ch, create_signature_tree char_to_dbus_type s nullptr = .ok (ch, []) ∧
      ∀ k p, p.has_type .ARRAY = false →
        create_signature_tree char_to_dbus_type (s ++ k) p =
          (create_signature_tree char_to_dbus_type k p).bind fun r => .ok (link ch r.1, r.2) := by
  obtain ⟨ch, hch⟩ := typeSeq_parses h
  exact ⟨ch, (create_signature_tree_top_iff _ _ _ _).2 ⟨hch, rfl⟩,
    (create_signature_tree_of_parses _ hch).1⟩

/-- C4: an END character is accepted only under a parent of the matching kind.  For every
well-formed type sequence `s`, the texts `(s}` and `{s)` and the texts `a)` and `a}` make the
parser throw the unmatched-end error, and the Signature constructed from each of them is not
valid. -/
theorem mismatched_end_is_rejected (s : List Char) (h : TypeSeq s) :
    create_signature_tree char_to_dbus_type ('(' :: (s ++ ['}'])) nullptr =
      .parse_error .dict_entry_end_without_begin ∧
    create_signature_tree char_to_dbus_type ('{' :: (s ++ [')'])) nullptr =
      .parse_error .struct_end_without_begin ∧
    create_signature_tree char_to_dbus_type ['a', ')'] nullptr =
      .parse_error .struct_end_without_begin ∧
    create_signature_tree char_to_dbus_type ['a', '}'] nullptr =
      .parse_error .dict_entry_end_without_begin ∧
    ∀ text ∈ [('(' :: (s ++ ['}'])), ('{' :: (s ++ [')'])), ['a', ')'], ['a', '}']],
      ∃ sig, Signature.of_string char_to_dbus_type text = .ok sig ∧ sig.is_valid = false := by
  obtain ⟨ch, _, happ⟩ := create_signature_tree_typeSeq_append h
  have h1 : create_signature_tree char_to_dbus_type ('(' :: (s ++ ['}'])) nullptr =
      .parse_error .dict_entry_end_without_begin := by
    rw [create_signature_tree_opens _ _ _ _ .STRUCT (by decide),
      happ _ (node .STRUCT nullptr nullptr) rfl,
      create_signature_tree_dict_entry_end _ _ _ _ (by decide)]
    rfl
  have h2 : create_signature_tree char_to_dbus_type ('{' :: (s ++ [')'])) nullptr =
      .parse_error .struct_end_without_begin := by
    rw [create_signature_tree_opens _ _ _ _ .DICT_ENTRY (by decide),
      happ _ (node .DICT_ENTRY nullptr nullptr) rfl,
      create_signature_tree_struct_end _ _ _ _ (by decide)]
    rfl
  have h3 : create_signature_tree char_to_dbus_type ['a', ')'] nullptr =
      .parse_error .struct_end_without_begin := by decide
  have h4 : create_signature_tree char_to_dbus_type ['a', '}'] nullptr =
      .parse_error .dict_entry_end_without_begin := by decide
  refine ⟨h1, h2, h3, h4, ?_⟩
  intro text htext
  simp only [List.mem_cons, List.mem_singleton, List.not_mem_nil, or_false] at htext
  rcases htext with rfl | rfl | rfl | rfl
  · exact ⟨_, Signature.of_string_of_parse_error _ h1, rfl⟩
  · exact ⟨_, Signature.of_string_of_parse_error _ h2, rfl⟩
  · exact ⟨_, Signature.of_string_of_parse_error _ h3, rfl⟩
  · exact ⟨_, Signature.of_string_of_parse_error _ h4, rfl⟩

/-- Witness for `mismatched_end_is_rejected`: the sequence `ii`, that is the text `(ii}`. -/
theorem mismatched_end_is_rejected_witness :
    TypeSeq ['i', 'i'] ∧
    create_signature_tree char_to_dbus_type ['(', 'i', 'i', '}'] nullptr =
      .parse_error .dict_entry_end_without_begin :=
  ⟨typeSeq_ii, (mismatched_end_is_rejected ['i', 'i'] typeSeq_ii).1⟩

/-- C5: a container that is not closed.  For every well-formed type sequence `s` the parse of
`(s` throws the missing-STRUCT-end error and the parse of `{s` the missing-DICT_ENTRY-end
error, also when the opening character is the element of an array (`a(s`, `a{s`), and the
Signature constructed from each of the four texts is not valid. -/
theorem unterminated_container_is_rejected (s : List Char) (h : TypeSeq s) :
    create_signature_tree char_to_dbus_type ('(' :: s) nullptr =
      .parse_error .missing_struct_end ∧
    create_signature_tree char_to_dbus_type ('{' :: s) nullptr =
      .parse_error .missing_dict_entry_end ∧
    create_signature_tree char_to_dbus_type ('a' :: '(' :: s) nullptr =
      .parse_error .missing_struct_end ∧
    create_signature_tree char_to_dbus_type ('a' :: '{' :: s) nullptr =
      .parse_error .missing_dict_entry_end ∧
    ∀ text ∈ [('(' :: s), ('{' :: s), ('a' :: '(' :: s), ('a' :: '{' :: s)],
      ∃ sig, Signature.of_string char_to_dbus_type text = .ok sig ∧ sig.is_valid = false := by
  obtain ⟨ch, _, happ⟩ := create_signature_tree_typeSeq_append h
  have hs1 : create_signature_tree char_to_dbus_type s (node .STRUCT nullptr nullptr) =
      .parse_error .missing_struct_end := by
    have := happ [] (node .STRUCT nullptr nullptr) rfl
    rw [List.append_nil] at this
    rw [this]
    rfl
  have hs2 : create_signature_tree char_to_dbus_type s (node .DICT_ENTRY nullptr nullptr) =
      .parse_error .missing_dict_entry_end := by
    have := happ [] (node .DICT_ENTRY nullptr nullptr) rfl
    rw [List.append_nil] at this
    rw [this]
    rfl
  have h1 : ∀ p, create_signature_tree char_to_dbus_type ('(' :: s) p =
      .parse_error .missing_struct_end := by
    intro p
    rw [create_signature_tree_opens _ _ _ _ .STRUCT (by decide), hs1]
    rfl
  have h2 : ∀ p, create_signature_tree char_to_dbus_type ('{' :: s) p =
      .parse_error .missing_dict_entry_end := by
    intro p
    rw [create_signature_tree_opens _ _ _ _ .DICT_ENTRY (by decide), hs2]
    rfl
  have h3 : create_signature_tree char_to_dbus_type ('a' :: '(' :: s) nullptr =
      .parse_error .missing_struct_end := by
    rw [create_signature_tree_opens _ _ _ _ .ARRAY (by decide), h1]
    rfl
  have h4 : create_signature_tree char_to_dbus_type ('a' :: '{' :: s) nullptr =
      .parse_error .missing_dict_entry_end := by
    rw [create_signature_tree_opens _ _ _ _ .ARRAY (by decide), h2]
    rfl
  refine ⟨h1 _, h2 _, h3, h4, ?_⟩
  intro text htext
  simp only [List.mem_cons, List.mem_singleton, List.not_mem_nil, or_false] at htext
  rcases htext with rfl | rfl | rfl | rfl
  · exact ⟨_, Signature.of_string_of_parse_error _ (h1 _), rfl⟩
  · exact ⟨_, Signature.of_string_of_parse_error _ (h2 _), rfl⟩
  · exact ⟨_, Signature.of_string_of_parse_error _ h3, rfl⟩
  · exact ⟨_, Signature.of_string_of_parse_error _ h4, rfl⟩

/-- Witness for `unterminated_container_is_rejected`: the sequence `i`, that is the text `(i`. -/
theorem unterminated_container_is_rejected_witness :
    TypeSeq ['i'] ∧
    create_signature_tree char_to_dbus_type ['(', 'i'] nullptr =
      .parse_error .missing_struct_end :=
  ⟨typeSeq_i, (unterminated_container_is_rejected ['i'] typeSeq_i).1⟩

/-- C6: a text with an unknown character does not always yield `is_valid() == false`.  In
`)1` the character `1` has no tag, but the parser first meets `)` at top level and reads
`parent_node->m_dataType` while `parent_node` is null, so the constructor performs an
undefined operation instead of returning an invalid Signature. -/
theorem unknown_character_behind_top_level_end :
    char_to_dbus_type '1' = .INVALID ∧
    Signature.of_string char_to_dbus_type [')', '1'] = .undefined .null_parent_dereference ∧
    create_signature_tree char_to_dbus_type ['1'] nullptr = .parse_error .unknown_data_type := by
  refine ⟨by decide, by decide, by decide⟩

/-- C7: `is_singleton()` is not `false` on every invalid text.  The closing brace alone is
not a complete type, but on it the parser reads `parent_node->m_dataType` while `parent_node`
is null, so the constructor performs an undefined operation and no Signature is there to
answer `is_singleton()`. -/
theorem is_singleton_undefined_on_invalid_text :
    ¬ CompleteType ['}'] ∧
    Signature.of_string char_to_dbus_type ['}'] = .undefined .null_parent_dereference := by
  refine ⟨fun h => ?_, by decide⟩
  obtain ⟨sig, hsig, _⟩ := (Signature.of_string_singleton_iff_completeType _).2 h
  have : Signature.of_string char_to_dbus_type ['}'] = .undefined .null_parent_dereference := by
    decide
  rw [this] at hsig
  cases hsig

/-- C8: the arity of an array element.  For every complete type `t` and every well-formed
type sequence `rest`, the parse of `a` followed by `t` and `rest` succeeds with an `ARRAY`
node whose child is the one-node chain of the parse of `t` alone and whose next sibling is
the chain of the parse of `rest` alone. -/
theorem array_takes_exactly_one_type (t rest : List Char) (ht : CompleteType t)
    (hr : TypeSeq rest) :
    ∃ ty sb cr,
      create_signature_tree char_to_dbus_type t nullptr = .ok (node ty sb nullptr, []) ∧
      create_signature_tree char_to_dbus_type rest nullptr = .ok (cr, []) ∧
      create_signature_tree char_to_dbus_type ('a' :: (t ++ rest)) nullptr =
        .ok (node .ARRAY (node ty sb nullptr) cr, []) := by
  obtain ⟨ty, sb, hpt⟩ := completeType_parses ht
  obtain ⟨cr, hpr⟩ := typeSeq_parses hr
  exact ⟨ty, sb, cr, (create_signature_tree_top_iff _ _ _ _).2 ⟨hpt, rfl⟩,
    (create_signature_tree_top_iff _ _ _ _).2 ⟨hpr, rfl⟩,
    (create_signature_tree_top_iff _ _ _ _).2 ⟨.array 'a' t rest ty sb cr (by decide) hpt hpr, rfl⟩⟩

/-- Witness for `array_takes_exactly_one_type`: the type `i` and the sequence `ii`, that is
the text `aiii`. -/
theorem array_takes_exactly_one_type_witness :
    CompleteType ['i'] ∧ TypeSeq ['i', 'i'] ∧
    ∃ ty sb cr,
      create_signature_tree char_to_dbus_type ['i'] nullptr = .ok (node ty sb nullptr, []) ∧
      create_signature_tree char_to_dbus_type ['i', 'i'] nullptr = .ok (cr, []) ∧
      create_signature_tree char_to_dbus_type ['a', 'i', 'i', 'i'] nullptr =
        .ok (node .ARRAY (node ty sb nullptr) cr, []) :=
  ⟨completeType_i, typeSeq_ii,
    array_takes_exactly_one_type ['i'] ['i', 'i'] completeType_i typeSeq_ii⟩

/-- C9: for every tag lookup and every text that parses successfully, every node tagged
`ARRAY` in the returned tree has a child chain of exactly one node. -/
theorem parsed_arrays_have_one_child (tag_of : Char → DataType) (text : List Char)
    (r : SignatureNodePointer × List Char)
    (h : create_signature_tree tag_of text nullptr = .ok r) :
    r.1.arrays_have_one_child = true := by
  obtain ⟨ch, i2⟩ := r
  exact ((create_signature_tree_top_iff _ _ _ _).1 h).1.array_children

/-- Witness for `parsed_arrays_have_one_child`: the text `a(ai)`. -/
theorem parsed_arrays_have_one_child_witness :
    create_signature_tree char_to_dbus_type ['a', '(', 'a', 'i', ')'] nullptr =
      .ok (node .ARRAY (node .STRUCT (node .ARRAY (node .INT32 nullptr nullptr) nullptr)
        nullptr) nullptr, []) ∧
    (node .ARRAY (node .STRUCT (node .ARRAY (node .INT32 nullptr nullptr) nullptr)
        nullptr) nullptr).arrays_have_one_child = true :=
  ⟨by decide, parsed_arrays_have_one_child char_to_dbus_type ['a', '(', 'a', 'i', ')']
    (node .ARRAY (node .STRUCT (node .ARRAY (node .INT32 nullptr nullptr) nullptr)
        nullptr) nullptr, []) (by decide)⟩

/-- C10: for every well-formed type sequence `s`, the empty one included, the parse of `(s)`
succeeds with exactly one top-level node, tagged `STRUCT`, whose next sibling is null and
whose child is the chain of the parse of `s` alone; the child of `()` is null. -/
theorem struct_is_one_node (s : List Char) (h : TypeSeq s) :
    ∃ cs,
      create_signature_tree char_to_dbus_type s nullptr = .ok (cs, []) ∧
      create_signature_tree char_to_dbus_type ('(' :: (s ++ [')'])) nullptr =
        .ok (node .STRUCT cs nullptr, []) ∧
      (s = [] → cs = nullptr) := by
  obtain ⟨cs, hps⟩ := typeSeq_parses h
  refine ⟨cs, (create_signature_tree_top_iff _ _ _ _).2 ⟨hps, rfl⟩,
    (create_signature_tree_top_iff _ _ _ _).2
      ⟨.struct '(' ')' s [] cs nullptr (by decide) (by decide) hps .nil, rfl⟩, ?_⟩
  rintro rfl
  cases hps
  rfl

/-- Witness for `struct_is_one_node`: the sequence `ii`, that is the text `(ii)`. -/
theorem struct_is_one_node_witness :
    TypeSeq ['i', 'i'] ∧
    ∃ cs,
      create_signature_tree char_to_dbus_type ['i', 'i'] nullptr = .ok (cs, []) ∧
      create_signature_tree char_to_dbus_type ['(', 'i', 'i', ')'] nullptr =
        .ok (node .STRUCT cs nullptr, []) ∧
      (['i', 'i'] = ([] : List Char) → cs = nullptr) :=
  ⟨typeSeq_ii, struct_is_one_node ['i', 'i'] typeSeq_ii⟩

/-- C11: the field count of a dict entry is not checked.  For every well-formed type
sequence `s`, of any number of top-level types, the parse of `s` in braces succeeds with
exactly one top-level node, tagged `DICT_ENTRY`, whose child is the chain of the parse of `s`
alone, and the Signature constructed from the text is valid. -/
theorem dict_entry_takes_any_number_of_fields (s : List Char) (h : TypeSeq s) :
    ∃ cs,
      create_signature_tree char_to_dbus_type s nullptr = .ok (cs, []) ∧
      create_signature_tree char_to_dbus_type ('{' :: (s ++ ['}'])) nullptr =
        .ok (node .DICT_ENTRY cs nullptr, []) ∧
      ∃ sig, Signature.of_string char_to_dbus_type ('{' :: (s ++ ['}'])) = .ok sig ∧
        sig.is_valid = true ∧ sig.m_startingNode = node .DICT_ENTRY cs nullptr := by
  obtain ⟨cs, hps⟩ := typeSeq_parses h
  have h2 : create_signature_tree char_to_dbus_type ('{' :: (s ++ ['}'])) nullptr =
      .ok (node .DICT_ENTRY cs nullptr, []) :=
    (create_signature_tree_top_iff _ _ _ _).2
      ⟨.dict_entry '{' '}' s [] cs nullptr (by decide) (by decide) hps .nil, rfl⟩
  exact ⟨cs, (create_signature_tree_top_iff _ _ _ _).2 ⟨hps, rfl⟩, h2,
    _, Signature.of_string_of_ok _ h2, rfl, rfl⟩

/-- Witness for `dict_entry_takes_any_number_of_fields`: the empty sequence and the
sequences `i` and `ii`, that is dict entries of zero, one and two fields. -/
theorem dict_entry_takes_any_number_of_fields_witness :
    (TypeSeq [] ∧ TypeSeq ['i'] ∧ TypeSeq ['i', 'i']) ∧
    (∃ cs, create_signature_tree char_to_dbus_type [] nullptr = .ok (cs, []) ∧
      create_signature_tree char_to_dbus_type ['{', '}'] nullptr =
        .ok (node .DICT_ENTRY cs nullptr, [])) ∧
    (∃ cs, create_signature_tree char_to_dbus_type ['i'] nullptr = .ok (cs, []) ∧
      create_signature_tree char_to_dbus_type ['{', 'i', '}'] nullptr =
        .ok (node .DICT_ENTRY cs nullptr, [])) ∧
    (∃ cs, create_signature_tree char_to_dbus_type ['i', 'i'] nullptr = .ok (cs, []) ∧
      create_signature_tree char_to_dbus_type ['{', 'i', 'i', '}'] nullptr =
        .ok (node .DICT_ENTRY cs nullptr, [])) := by
  refine ⟨⟨typeSeq_nil, typeSeq_i, typeSeq_ii⟩, ?_, ?_, ?_⟩
  · obtain ⟨cs, h1, h2, _⟩ := dict_entry_takes_any_number_of_fields [] typeSeq_nil
    exact ⟨cs, h1, h2⟩
  · obtain ⟨cs, h1, h2, _⟩ := dict_entry_takes_any_number_of_fields ['i'] typeSeq_i
    exact ⟨cs, h1, h2⟩
  · obtain ⟨cs, h1, h2, _⟩ := dict_entry_takes_any_number_of_fields ['i', 'i'] typeSeq_ii
    exact ⟨cs, h1, h2⟩

/-- C12: for every tag lookup and every text on which the parse throws, the constructor
returns (the error does not escape) a Signature that is not valid, has a null root, is not a
singleton, and whose `begin()` equals its `end()`. -/
theorem failed_parse_exposes_no_tree (tag_of : Char → DataType) (text : List Char)
    (e : ErrorUnableToParse)
    (h : create_signature_tree tag_of text nullptr = .parse_error e) :
    ∃ sig, Signature.of_string tag_of text = .ok sig ∧
      sig.is_valid = false ∧ sig.m_startingNode = nullptr ∧ sig.is_singleton = false ∧
      sig.begin = sig.end_ :=
  ⟨_, Signature.of_string_of_parse_error _ h, rfl, rfl, rfl, rfl⟩

/-- Witness for `failed_parse_exposes_no_tree`: the text `i(i`, whose parse has built a
node before it throws. -/
theorem failed_parse_exposes_no_tree_witness :
    create_signature_tree char_to_dbus_type ['i', '(', 'i'] nullptr =
      .parse_error .missing_struct_end ∧
    ∃ sig, Signature.of_string char_to_dbus_type ['i', '(', 'i'] = .ok sig ∧
      sig.is_valid = false ∧ sig.m_startingNode = nullptr ∧ sig.is_singleton = false ∧
      sig.begin = sig.end_ :=
  ⟨by decide, failed_parse_exposes_no_tree char_to_dbus_type ['i', '(', 'i']
    .missing_struct_end (by decide)⟩

/-- C13: for every tag lookup, each text constructor on the empty text (the plain one on the
empty text, the substring one with length 0 or with the start at the end of the string, the
character-array one with length 0, the fill one with count 0) returns the same Signature: it
is valid, has a null root, is not a singleton, and its `begin()` equals its `end()`. -/
theorem empty_text_is_valid (tag_of : Char → DataType) :
    ∃ sig : Signature,
      Signature.of_string tag_of [] = .ok sig ∧
      (∀ s pos, pos ≤ s.length → Signature.of_substring tag_of s pos 0 = some (.ok sig)) ∧
      (∀ s n, Signature.of_substring tag_of s s.length n = some (.ok sig)) ∧
      (∀ s, Signature.of_c_string_n tag_of s 0 = some (.ok sig)) ∧
      (∀ c, Signature.of_fill tag_of 0 c = .ok sig) ∧
      sig.str = [] ∧ sig.is_valid = true ∧ sig.m_startingNode = nullptr ∧
      sig.is_singleton = false ∧ sig.begin = sig.end_ := by
  refine ⟨{ m_signature := [], m_startingNode := nullptr, m_valid := true },
    rfl, ?_, ?_, ?_, ?_, rfl, rfl, rfl, rfl, rfl⟩
  · intro s pos hpos
    simp only [Signature.of_substring, std_string_substr, hpos, if_true, List.take_zero,
      Option.map_some']
    rfl
  · intro s n
    simp only [Signature.of_substring, std_string_substr, le_refl, if_true, List.drop_length,
      List.take_nil, Option.map_some']
    rfl
  · intro s
    simp only [Signature.of_c_string_n, Nat.zero_le, if_true, List.take_zero]
    rfl
  · intro c
    rfl

/-- Witness for `empty_text_is_valid`: the substring of length 0 at position 1 of `ii`. -/
theorem empty_text_is_valid_witness :
    (1 ≤ ['i', 'i'].length) ∧
    ∃ sig : Signature,
      Signature.of_substring char_to_dbus_type ['i', 'i'] 1 0 = some (.ok sig) ∧
      sig.is_valid = true ∧ sig.m_startingNode = nullptr := by
  refine ⟨by decide, ?_⟩
  obtain ⟨sig, _, h2, _, _, _, _, h7, h8, _⟩ := empty_text_is_valid char_to_dbus_type
  exact ⟨sig, h2 ['i', 'i'] 1 (by decide), h7, h8⟩

theorem Parses.container_children {tag_of : Char → DataType} {s : List Char}
    {ch : SignatureNodePointer} (h : Parses tag_of s ch) :
    ch.only_containers_have_child = true := by
  induction h with
  | nil => rfl
  | plain c s next _ _ ih => simp [SignatureNodePointer.only_containers_have_child, ih]
  | array c t s ty sb next _ _ _ iht ihs =>
    simp only [SignatureNodePointer.only_containers_have_child, Bool.and_eq_true,
      Bool.or_eq_true, beq_iff_eq, and_true] at iht
    simp [SignatureNodePointer.only_containers_have_child, iht, ihs]
  | struct c e f s sub next _ _ _ _ ihf ihs =>
    simp [SignatureNodePointer.only_containers_have_child, ihf, ihs]
  | dict_entry c e f s sub next _ _ _ _ ihf ihs =>
    simp [SignatureNodePointer.only_containers_have_child, ihf, ihs]

theorem SignatureNodePointer.child_of_all_nodes (ch : SignatureNodePointer)
    (h : ch.only_containers_have_child = true) :
    ∀ n ∈ ch.all_nodes, n.2 ≠ nullptr → n.1 = .ARRAY ∨ n.1 = .STRUCT ∨ n.1 = .DICT_ENTRY := by
  induction ch with
  | nullptr => intro n hn; cases hn
  | node t sub next ihs ihn =>
    simp only [only_containers_have_child, Bool.and_eq_true, Bool.or_eq_true, beq_iff_eq] at h
    obtain ⟨⟨h1, h2⟩, h3⟩ := h
    intro n hn hne
    simp only [all_nodes, List.mem_cons, List.mem_append] at hn
    rcases hn with rfl | hn | hn
    · rcases h1 with ((h1 | h1) | h1) | h1
      · exact absurd h1 hne
      · exact Or.inl h1
      · exact Or.inr (Or.inl h1)
      · exact Or.inr (Or.inr h1)
    · exact ihs h2 n hn hne
    · exact ihn h3 n hn hne

/-- C14: for every tag lookup and every text that parses successfully, every node of the
returned tree that has a populated child is tagged `ARRAY`, `STRUCT` or `DICT_ENTRY`, and
every node with a primitive tag or `VARIANT` has a null child. -/
theorem only_containers_have_children (tag_of : Char → DataType) (text : List Char)
    (r : SignatureNodePointer × List Char)
    (h : create_signature_tree tag_of text nullptr = .ok r) :
    r.1.only_containers_have_child = true ∧
    (∀ n ∈ r.1.all_nodes, n.2 ≠ nullptr → n.1 = .ARRAY ∨ n.1 = .STRUCT ∨ n.1 = .DICT_ENTRY) ∧
    (∀ n ∈ r.1.all_nodes, n.1.is_basic = true → n.2 = nullptr) := by
  obtain ⟨ch, i2⟩ := r
  have hp := ((create_signature_tree_top_iff _ _ _ _).1 h).1
  have hall := SignatureNodePointer.child_of_all_nodes ch hp.container_children
  refine ⟨hp.container_children, hall, ?_⟩
  intro n hn hb
  by_contra hne
  rcases hall n hn hne with h1 | h1 | h1 <;> rw [h1] at hb <;> cases hb

/-- Witness for `only_containers_have_children`: the text `ia(vs)`. -/
theorem only_containers_have_children_witness :
    create_signature_tree char_to_dbus_type ['i', 'a', '(', 'v', 's', ')'] nullptr =
      .ok (node .INT32 nullptr (node .ARRAY (node .STRUCT
        (node .VARIANT nullptr (node .STRING nullptr nullptr)) nullptr) nullptr), []) ∧
    (node .INT32 nullptr (node .ARRAY (node .STRUCT
        (node .VARIANT nullptr (node .STRING nullptr nullptr)) nullptr)
          nullptr)).only_containers_have_child = true :=
  ⟨by decide, (only_containers_have_children char_to_dbus_type
    ['i', 'a', '(', 'v', 's', ')'] (_, []) (by decide)).1⟩

/-- C15: the parser does not end on every text with a chain or a parse error, and the cursor
does move past the end of the text.  The embedding itself always ends (it never runs out of
the fuel `length + 1`), but on `a` the nested call for the array element returns at once with
the iterator at `end_itr`, and the `++itr` behind the switch (line 221) then moves it past
`end_itr`; on `)` the parser dereferences the null `parent_node`. -/
theorem cursor_moves_past_the_end :
    (∀ (tag_of : Char → DataType) (text : List Char) (p : SignatureNodePointer),
      create_signature_tree tag_of text p ≠ .out_of_fuel) ∧
    create_signature_tree char_to_dbus_type [] (node .ARRAY nullptr nullptr) =
      .ok (nullptr, []) ∧
    create_signature_tree char_to_dbus_type ['a'] nullptr = .undefined .increment_past_end ∧
    create_signature_tree char_to_dbus_type ['{', 'a'] nullptr =
      .undefined .increment_past_end ∧
    create_signature_tree char_to_dbus_type [')'] nullptr =
      .undefined .null_parent_dereference :=
  ⟨fun tag_of text p => create_signature_tree_ne_out_of_fuel tag_of text p,
    by decide, by decide, by decide, by decide⟩

/-- C16: an array prefix at the end of the input is not rejected with a parse error.  On
`a`, `ia`, `aa` and `(a` the call for the missing element returns a null chain with the
iterator at `end_itr`, and the `++itr` of line 221, in the first enclosing call whose parent
is not `ARRAY`, moves the iterator past `end_itr`: the behaviour is undefined, no
`ErrorUnableToParse` is thrown, and the constructor does not return an invalid Signature. -/
theorem array_without_element_overruns :
    create_signature_tree char_to_dbus_type ['a'] nullptr = .undefined .increment_past_end ∧
    create_signature_tree char_to_dbus_type ['i', 'a'] nullptr =
      .undefined .increment_past_end ∧
    create_signature_tree char_to_dbus_type ['a', 'a'] nullptr =
      .undefined .increment_past_end ∧
    create_signature_tree char_to_dbus_type ['(', 'a'] nullptr =
      .undefined .increment_past_end ∧
    Signature.of_string char_to_dbus_type ['i', 'a'] = .undefined .increment_past_end := by
  refine ⟨by decide, by decide, by decide, by decide, by decide⟩

theorem parses_plain_chain (text : List Char) (h : ∀ c ∈ text, is_basic_char c = true) :
    Parses char_to_dbus_type text (plain_chain (text.map char_to_dbus_type)) := by
  induction text with
  | nil => exact .nil
  | cons c rest ih =>
    exact .plain c rest _ (by rw [char_to_dbus_type_is_plain]; exact h c (List.mem_cons_self _ _))
      (ih fun d hd => h d (List.mem_cons_of_mem _ hd))

theorem SignatureNodePointer.chain_length_plain_chain (ts : List DataType) :
    chain_length (plain_chain ts) = ts.length := by
  induction ts with
  | nil => rfl
  | cons t ts ih => simp [plain_chain, chain_length, ih]

/-- C17: for every text made only of primitive or variant characters, the parse succeeds with
the chain of childless nodes tagged, in order, with the tags of the characters; the chain has
as many nodes as the text has characters, and the constructed Signature is valid and is a
singleton exactly when the text has one character. -/
theorem basic_text_parses_to_plain_chain (text : List Char)
    (h : ∀ c ∈ text, is_basic_char c = true) :
    create_signature_tree char_to_dbus_type text nullptr =
      .ok (plain_chain (text.map char_to_dbus_type), []) ∧
    chain_length (plain_chain (text.map char_to_dbus_type)) = text.length ∧
    ∃ sig, Signature.of_string char_to_dbus_type text = .ok sig ∧ sig.is_valid = true ∧
      sig.m_startingNode = plain_chain (text.map char_to_dbus_type) ∧
      (sig.is_singleton = true ↔ text.length = 1) := by
  have hp := (create_signature_tree_top_iff _ _ _ _).2 ⟨parses_plain_chain text h, rfl⟩
  refine ⟨hp, by simp [SignatureNodePointer.chain_length_plain_chain], _,
    Signature.of_string_of_ok _ hp, rfl, rfl, ?_⟩
  cases text with
  | nil => simp [Signature.is_singleton, plain_chain]
  | cons c rest =>
    have hc : char_to_dbus_type c ≠ .INVALID := by
      have h1 := h c (List.mem_cons_self _ _)
      rw [← char_to_dbus_type_is_plain] at h1
      intro h0
      rw [h0] at h1
      cases h1
    cases rest with
    | nil => simp [Signature.is_singleton, plain_chain, hc]
    | cons d rest2 => simp [Signature.is_singleton, plain_chain]

/-- Witness for `basic_text_parses_to_plain_chain`: the text `sv`. -/
theorem basic_text_parses_to_plain_chain_witness :
    (∀ c ∈ ['s', 'v'], is_basic_char c = true) ∧
    create_signature_tree char_to_dbus_type ['s', 'v'] nullptr =
      .ok (plain_chain (['s', 'v'].map char_to_dbus_type), []) :=
  ⟨by decide, (basic_text_parses_to_plain_chain ['s', 'v'] (by decide)).1⟩

theorem created_tag_of_is_plain (d : DataType) (h : d.is_plain = true) :
    created_tag d = some d := by
  cases d <;> simp [DataType.is_plain] at h <;> rfl

theorem created_tag_eq_some_iff (d t : DataType) :
    created_tag d = some t ↔
      (d = .STRUCT_BEGIN ∧ t = .STRUCT) ∨ (d = .DICT_ENTRY_BEGIN ∧ t = .DICT_ENTRY) ∨
      (d = t ∧ d ≠ .STRUCT_BEGIN ∧ d ≠ .STRUCT_END ∧ d ≠ .DICT_ENTRY_BEGIN ∧
        d ≠ .DICT_ENTRY_END) := by
  cases d <;> cases t <;> simp [created_tag, new_node]

/-- The nodes of a tree are, in order, the nodes that `create_signature_node` allocates for
the characters of its text. -/
theorem Parses.all_tags_eq {tag_of : Char → DataType} {s : List Char}
    {ch : SignatureNodePointer} (h : Parses tag_of s ch) :
    ch.all_tags = s.filterMap fun c => created_tag (tag_of c) := by
  induction h with
  | nil => rfl
  | plain c s next hc _ ih =>
    simp [all_tags, List.filterMap_cons, created_tag_of_is_plain _ hc, ih]
  | array c t s ty sb next hc _ _ iht ihs =>
    have h1 : created_tag (tag_of c) = some .ARRAY := by rw [hc]; rfl
    simp [all_tags, List.filterMap_cons, List.filterMap_append, h1, ← iht, ← ihs]
  | struct c e f s sub next hc he _ _ ihf ihs =>
    have h1 : created_tag (tag_of c) = some .STRUCT := by rw [hc]; rfl
    have h2 : created_tag (tag_of e) = none := by rw [he]; rfl
    simp [all_tags, List.filterMap_cons, List.filterMap_append, h1, h2, ← ihf, ← ihs]
  | dict_entry c e f s sub next hc he _ _ ihf ihs =>
    have h1 : created_tag (tag_of c) = some .DICT_ENTRY := by rw [hc]; rfl
    have h2 : created_tag (tag_of e) = none := by rw [he]; rfl
    simp [all_tags, List.filterMap_cons, List.filterMap_append, h1, h2, ← ihf, ← ihs]

/-- C18, as the code has it: for every tag lookup and every text that parses successfully,
the nodes of the tree are, in order, the nodes allocated for the characters of the text; a
node tagged `STRUCT` stems from a character whose tag is `STRUCT_BEGIN` or `STRUCT` itself, a
node tagged `DICT_ENTRY` from a character whose tag is `DICT_ENTRY_BEGIN` or `DICT_ENTRY`
itself, and no node is tagged `STRUCT_BEGIN`, `STRUCT_END`, `DICT_ENTRY_BEGIN` or
`DICT_ENTRY_END`; a character that the lookup resolves directly to `STRUCT` or `DICT_ENTRY`
yields a node with that tag and a null child. -/
theorem container_tags_of_parsed_tree (tag_of : Char → DataType) (text : List Char)
    (r : SignatureNodePointer × List Char)
    (h : create_signature_tree tag_of text nullptr = .ok r) :
    r.1.all_tags = text.filterMap (fun c => created_tag (tag_of c)) ∧
    (∀ d, created_tag d = some .STRUCT ↔ d = .STRUCT_BEGIN ∨ d = .STRUCT) ∧
    (∀ d, created_tag d = some .DICT_ENTRY ↔ d = .DICT_ENTRY_BEGIN ∨ d = .DICT_ENTRY) ∧
    (∀ t ∈ r.1.all_tags, t ≠ .STRUCT_BEGIN ∧ t ≠ .STRUCT_END ∧ t ≠ .DICT_ENTRY_BEGIN ∧
      t ≠ .DICT_ENTRY_END) ∧
    (∀ c, tag_of c = .STRUCT ∨ tag_of c = .DICT_ENTRY →
      create_signature_tree tag_of [c] nullptr = .ok (node (tag_of c) nullptr nullptr, [])) := by
  obtain ⟨ch, i2⟩ := r
  have hp := ((create_signature_tree_top_iff _ _ _ _).1 h).1
  have htags := hp.all_tags_eq
  refine ⟨htags, ?_, ?_, ?_, ?_⟩
  rotate_right
  · intro c hc
    have hpl : (tag_of c).is_plain = true := by rcases hc with hc | hc <;> rw [hc] <;> rfl
    exact (create_signature_tree_top_iff _ _ _ _).2 ⟨.plain c [] nullptr hpl .nil, rfl⟩
  · intro d; cases d <;> simp [created_tag, new_node]
  · intro d; cases d <;> simp [created_tag, new_node]
  · intro t ht
    simp only at ht
    rw [htags, List.mem_filterMap] at ht
    obtain ⟨c, _, hc⟩ := ht
    rcases (created_tag_eq_some_iff _ _).1 hc with ⟨_, rfl⟩ | ⟨_, rfl⟩ | ⟨rfl, h1, h2, h3, h4⟩
    · decide
    · decide
    · exact ⟨h1, h2, h3, h4⟩

/-- Witness for `container_tags_of_parsed_tree`: the text `a(i)` under the lookup of the
specification. -/
theorem container_tags_of_parsed_tree_witness :
    create_signature_tree char_to_dbus_type ['a', '(', 'i', ')'] nullptr =
      .ok (node .ARRAY (node .STRUCT (node .INT32 nullptr nullptr) nullptr) nullptr, []) ∧
    (node .ARRAY (node .STRUCT (node .INT32 nullptr nullptr) nullptr) nullptr).all_tags =
      ['a', '(', 'i', ')'].filterMap (fun c => created_tag (char_to_dbus_type c)) :=
  ⟨by decide, (container_tags_of_parsed_tree char_to_dbus_type ['a', '(', 'i', ')']
    (_, []) (by decide)).1⟩

/-- C18 fails on the code: under a tag lookup that resolves `r` directly to `STRUCT` and `e`
directly to `DICT_ENTRY`, the text `re` has no BEGIN character, yet its parse succeeds with a
node tagged `STRUCT` and a node tagged `DICT_ENTRY` (the `case DataType::STRUCT` and
`case DataType::DICT_ENTRY` branches of the switch keep such nodes, without child). -/
theorem direct_container_tag_yields_node :
    char_to_dbus_type_with_containers 'r' = .STRUCT ∧
    char_to_dbus_type_with_containers 'e' = .DICT_ENTRY ∧
    (∀ c ∈ ['r', 'e'], char_to_dbus_type_with_containers c ≠ .STRUCT_BEGIN ∧
      char_to_dbus_type_with_containers c ≠ .DICT_ENTRY_BEGIN) ∧
    create_signature_tree char_to_dbus_type_with_containers ['r', 'e'] nullptr =
      .ok (node .STRUCT nullptr (node .DICT_ENTRY nullptr nullptr), []) := by
  refine ⟨by decide, by decide, by decide, by decide⟩

theorem unparse_plain (t : DataType) (sub next : SignatureNodePointer)
    (h1 : t ≠ .ARRAY) (h2 : t ≠ .STRUCT) (h3 : t ≠ .DICT_ENTRY) :
    unparse (node t sub next) = dbus_type_to_char t :: unparse next := by
  cases t <;> simp_all [unparse]

theorem unparse_array (sub next : SignatureNodePointer) :
    unparse (node .ARRAY sub next) = 'a' :: (unparse sub ++ unparse next) := by
  simp [unparse]

theorem unparse_link (a b : SignatureNodePointer) :
    unparse (link a b) = unparse a ++ unparse b := by
  induction a with
  | nullptr => rfl
  | node t s n _ ih => cases t <;> simp [link, unparse, ih]

/-- The text of the tree of a text is that text. -/
theorem Parses.unparse_eq {s : List Char} {ch : SignatureNodePointer}
    (h : Parses char_to_dbus_type s ch) : unparse ch = s := by
  induction h with
  | nil => rfl
  | plain c s next hc _ ih =>
    have hne : char_to_dbus_type c ≠ .INVALID := by
      intro h0; rw [h0] at hc; cases hc
    have hm := char_to_dbus_type_mem c hne
    have htab : ∀ e ∈ dbus_type_table, e.2.is_plain = true →
        e.2 ≠ .ARRAY ∧ e.2 ≠ .STRUCT ∧ e.2 ≠ .DICT_ENTRY ∧ dbus_type_to_char e.2 = e.1 := by
      decide
    obtain ⟨h1, h2, h3, h4⟩ := htab _ hm hc
    rw [unparse_plain _ _ _ h1 h2 h3, ih]
    simp only at h4
    rw [h4]
  | array c t s ty sb next hc _ _ iht ihs =>
    rw [(char_to_dbus_type_array c).1 hc, unparse_array, iht, ihs]
  | struct c e f s sub next hc he _ _ ihf ihs =>
    rw [(char_to_dbus_type_struct_begin c).1 hc, (char_to_dbus_type_struct_end e).1 he]
    simp [unparse, ihf, ihs]
  | dict_entry c e f s sub next hc he _ _ ihf ihs =>
    rw [(char_to_dbus_type_dict_entry_begin c).1 hc, (char_to_dbus_type_dict_entry_end e).1 he]
    simp [unparse, ihf, ihs]

/-- C19: parsing loses no information on well-formed input.  For all well-formed type
sequences `text1` and `text2` both parses succeed, `unparse` gives each text back from its
chain, and equal chains come from equal texts only. -/
theorem unparse_create_signature_tree (text1 text2 : List Char) (h1 : TypeSeq text1)
    (h2 : TypeSeq text2) :
    ∃ c1 c2,
      create_signature_tree char_to_dbus_type text1 nullptr = .ok (c1, []) ∧
      create_signature_tree char_to_dbus_type text2 nullptr = .ok (c2, []) ∧
      unparse c1 = text1 ∧ unparse c2 = text2 ∧ (c1 = c2 → text1 = text2) := by
  obtain ⟨c1, hp1⟩ := typeSeq_parses h1
  obtain ⟨c2, hp2⟩ := typeSeq_parses h2
  refine ⟨c1, c2, (create_signature_tree_top_iff _ _ _ _).2 ⟨hp1, rfl⟩,
    (create_signature_tree_top_iff _ _ _ _).2 ⟨hp2, rfl⟩, hp1.unparse_eq, hp2.unparse_eq, ?_⟩
  intro hc
  rw [← hp1.unparse_eq, ← hp2.unparse_eq, hc]

/-- Witness for `unparse_create_signature_tree`: the texts `i` and `ii`. -/
theorem unparse_create_signature_tree_witness :
    TypeSeq ['i'] ∧ TypeSeq ['i', 'i'] ∧
    ∃ c1 c2,
      create_signature_tree char_to_dbus_type ['i'] nullptr = .ok (c1, []) ∧
      create_signature_tree char_to_dbus_type ['i', 'i'] nullptr = .ok (c2, []) ∧
      unparse c1 = ['i'] ∧ unparse c2 = ['i', 'i'] ∧ (c1 = c2 → ['i'] = ['i', 'i']) :=
  ⟨typeSeq_i, typeSeq_ii, unparse_create_signature_tree ['i'] ['i', 'i'] typeSeq_i typeSeq_ii⟩

/-- C20: top-level parsing respects concatenation.  For all well-formed type sequences `s1`
and `s2`, the parse of `s1` followed by `s2` succeeds with the chain of `s1` linked before
the chain of `s2`, every node keeping its child, so its length is the sum of the two
lengths. -/
theorem create_signature_tree_append (s1 s2 : List Char) (h1 : TypeSeq s1) (h2 : TypeSeq s2) :
    ∃ c1 c2,
      create_signature_tree char_to_dbus_type s1 nullptr = .ok (c1, []) ∧
      create_signature_tree char_to_dbus_type s2 nullptr = .ok (c2, []) ∧
      create_signature_tree char_to_dbus_type (s1 ++ s2) nullptr = .ok (link c1 c2, []) ∧
      chain_length (link c1 c2) = chain_length c1 + chain_length c2 ∧
      (link c1 c2).all_nodes = c1.all_nodes ++ c2.all_nodes := by
  obtain ⟨c1, hp1⟩ := typeSeq_parses h1
  obtain ⟨c2, hp2⟩ := typeSeq_parses h2
  refine ⟨c1, c2, (create_signature_tree_top_iff _ _ _ _).2 ⟨hp1, rfl⟩,
    (create_signature_tree_top_iff _ _ _ _).2 ⟨hp2, rfl⟩,
    (create_signature_tree_top_iff _ _ _ _).2 ⟨hp1.append hp2, rfl⟩,
    chain_length_link c1 c2, ?_⟩
  clear hp1 hp2 h1 h2
  induction c1 with
  | nullptr => rfl
  | node t s n _ ih => simp [link, all_nodes, ih]

/-- Witness for `create_signature_tree_append`: the sequences `i` and `ii`. -/
theorem create_signature_tree_append_witness :
    TypeSeq ['i'] ∧ TypeSeq ['i', 'i'] ∧
    ∃ c1 c2,
      create_signature_tree char_to_dbus_type ['i'] nullptr = .ok (c1, []) ∧
      create_signature_tree char_to_dbus_type ['i', 'i'] nullptr = .ok (c2, []) ∧
      create_signature_tree char_to_dbus_type (['i'] ++ ['i', 'i']) nullptr =
        .ok (link c1 c2, []) ∧
      chain_length (link c1 c2) = chain_length c1 + chain_length c2 ∧
      (link c1 c2).all_nodes = c1.all_nodes ++ c2.all_nodes :=
  ⟨typeSeq_i, typeSeq_ii, create_signature_tree_append ['i'] ['i', 'i'] typeSeq_i typeSeq_ii⟩

end DBus
